import Mathlib

/-!
Verification of the virtual-memory core of the xinu-vbox teaching OS.

The repository contains two coexisting implementations of the VM layer:

* the `ffs_tab`-based subsystem with a clock victim selector and a swap
  engine (`system/paging.c`), and
* the bitmap-based subsystem (`system/paging_init.c`,
  `system/pagefault_handler.c`, `system/vmalloc.c`, `system/vfree.c`,
  `system/vcreate.c`, `system/kill.c`, `system/paging_debug.c`) built on
  per-process `vheap_blocks` tables.

Both are embedded below, each in its own namespace, faithfully to the C
source.  Machine integers are modelled by `Nat`; where a claim's inputs
could make 32-bit arithmetic wrap, the theorem carries an explicit bound
keeping the `Nat` model aligned with the C `uint32` semantics.  C functions
that can `panic` are modelled with `Option` (`none` = panic); in-band
`SYSERR` returns are modelled with an inner `Option` or a `Bool`.
-/

set_option maxRecDepth 4000

namespace XinuVM

/-- `PAGE_SIZE` from include/paging.h. -/
def PAGE_SIZE : Nat := 4096

/-- `MAX_FFS_SIZE` from include/paging.h (16*1024 frames). -/
def MAX_FFS_SIZE : Nat := 16 * 1024

/-- `MAX_SWAP_SIZE` from include/paging.h (32*1024 frames). -/
def MAX_SWAP_SIZE : Nat := 32 * 1024

/-- `MAX_PT_SIZE` from include/paging.h (1024 frames). -/
def MAX_PT_SIZE : Nat := 1024

/-- `XINU_PAGES` from include/paging.h. -/
def XINU_PAGES : Nat := 8192

/-- `FFS_START` from include/paging.h. -/
def FFS_START : Nat := 0x02000000

/-- `FFS_END` from include/paging.h. -/
def FFS_END : Nat := 0x06000000

/-- `SWAP_START` from include/paging.h. -/
def SWAP_START : Nat := 0x06000000

/-- `SWAP_END` from include/paging.h. -/
def SWAP_END : Nat := 0x0E000000

/-- `VHEAP_BASE` from system/vcreate.c (`#define VHEAP_BASE 0x02000000`):
the virtual address every user process's heap starts at
(`prptr->prvheap = (char *)VHEAP_BASE`). -/
def VHEAP_BASE : Nat := 0x02000000

/-! ## Virtual-heap bookkeeping (system/vmalloc.c, system/vfree.c)

`struct vheap_block vheap_blocks[NPROC][MAX_VHEAP_BLOCKS]` together with
`vheap_block_count[pid]` is a per-process table of allocation records.
We model the used prefix of one process's table (`slots 0 ..
vheap_block_count[pid]-1`, in slot order) as a list.  `MAX_VHEAP_BLOCKS`
is defined in a header that is not part of the repository snapshot, so
the embedding takes it as a parameter `maxBlocks`. -/

/-- One slot of `vheap_blocks[pid]`: `struct vheap_block` (start address,
number of pages, allocated flag). -/
structure VBlock where
  start : Nat
  npages : Nat
  allocated : Bool
deriving Repr, DecidableEq

/-- The per-process heap bookkeeping touched by `vmalloc`/`vfree`:
`prptr->prisuser`, `prptr->prvheap`, the used prefix of
`vheap_blocks[pid]` (slot order), and `prptr->prvpages`. -/
structure VHeapState where
  isuser : Bool
  prvheap : Nat
  blocks : List VBlock
  prvpages : Nat
deriving Repr, DecidableEq

/-- The inner `for` loop of `vmalloc` (vmalloc.c lines 48-61): scan the
slots in order for the first allocated block that overlaps the candidate
range `[s, cend)`; the C test is
`!(candidate_end <= block_start || start_addr >= block_end)`.
Returns that block's end address (the next candidate), or `none`. -/
def firstOverlap (blocks : List VBlock) (s cend : Nat) : Option Nat :=
  match blocks with
  | [] => none
  | b :: bs =>
    if b.allocated ∧ ¬(cend ≤ b.start ∨ s ≥ b.start + b.npages * PAGE_SIZE) then
      some (b.start + b.npages * PAGE_SIZE)
    else firstOverlap bs s cend

/-- The outer `while` loop of `vmalloc` (vmalloc.c lines 43-67): try
candidate start addresses, skipping past the first overlapping block each
time, while `start_addr + npages*PAGE_SIZE <= heap_end`.  The C loop
terminates because each move jumps past a distinct allocated block, so
`blocks.length + 1` fuel makes the embedding exhaustive. -/
def findFit (blocks : List VBlock) (npages heapEnd : Nat) :
    Nat → Nat → Option Nat
  | 0, _ => none
  | fuel + 1, s =>
    if s + npages * PAGE_SIZE ≤ heapEnd then
      match firstOverlap blocks s (s + npages * PAGE_SIZE) with
      | none => some s
      | some nxt => findFit blocks npages heapEnd fuel nxt
    else none

/-- Slot recording in `vmalloc` (vmalloc.c lines 75-95): reuse the first
non-allocated slot; otherwise append a new slot provided
`vheap_block_count[pid] < MAX_VHEAP_BLOCKS` (`spaceLeft`); else `SYSERR`
(`none`). -/
def recordBlock (blocks : List VBlock) (spaceLeft : Bool) (s n : Nat) :
    Option (List VBlock) :=
  match blocks with
  | [] => if spaceLeft then some [⟨s, n, true⟩] else none
  | b :: bs =>
    if ¬b.allocated then some (⟨s, n, true⟩ :: bs)
    else (recordBlock bs spaceLeft s n).map (b :: ·)

/-- `vmalloc(nbytes)` (vmalloc.c): returns the allocated virtual address
(`none` = the `(char *)SYSERR` sentinel) and the updated bookkeeping.
`npages = (nbytes + PAGE_SIZE - 1) / PAGE_SIZE`; the search window is
`[prvheap, prvheap + 0x20000000]` (512MB limit); on success
`prvpages += npages`. -/
def vmalloc (maxBlocks : Nat) (st : VHeapState) (nbytes : Nat) :
    Option Nat × VHeapState :=
  if ¬st.isuser then (none, st)
  else
    let npages := (nbytes + PAGE_SIZE - 1) / PAGE_SIZE
    let heapEnd := st.prvheap + 0x20000000
    match findFit st.blocks npages heapEnd (st.blocks.length + 1) st.prvheap with
    | none => (none, st)
    | some s =>
      match recordBlock st.blocks (decide (st.blocks.length < maxBlocks)) s npages with
      | none => (none, st)
      | some bs =>
        (some s, { st with blocks := bs, prvpages := st.prvpages + npages })

/-- The exact-match search of `vfree` (vfree.c lines 37-44): the first
slot with `start == ptr && npages == n && allocated`. -/
def findExact (blocks : List VBlock) (ptr n : Nat) : Option Nat :=
  match blocks with
  | [] => none
  | b :: bs =>
    if b.start = ptr ∧ b.npages = n ∧ b.allocated then some 0
    else (findExact bs ptr n).map (· + 1)

/-- Mark slot `i` as freed (vfree.c line 53). -/
def freeSlot : List VBlock → Nat → List VBlock
  | [], _ => []
  | b :: bs, 0 => { b with allocated := false } :: bs
  | b :: bs, i + 1 => b :: freeSlot bs i

/-- The bookkeeping effect of `vfree(ptr, nbytes)` (vfree.c): `true` = `OK`,
`false` = `SYSERR`.  Requires a user process and an allocated block whose
start and (page-rounded) size match exactly; on failure it returns before
any mutation.  On success it marks the block freed and decrements
`prvpages` (`Nat` subtraction here; in every state where the block was
recorded by `vmalloc`, `prvpages ≥ npages`).  The page-table walk that
returns backing FFS frames (vfree.c lines 58-191) acts on the paging
state, not on this bookkeeping record. -/
def vfree (st : VHeapState) (ptr nbytes : Nat) : Bool × VHeapState :=
  if ¬st.isuser then (false, st)
  else
    let npages := (nbytes + PAGE_SIZE - 1) / PAGE_SIZE
    match findExact st.blocks ptr npages with
    | none => (false, st)
    | some i =>
      (true, { st with blocks := freeSlot st.blocks i,
                       prvpages := st.prvpages - npages })

/-! ## The bitmap-based VM (paging_init.c, vcreate.c, pagefault_handler.c, kill.c)

This subsystem keeps `ffs_bitmap`/`pt_bitmap` occupancy bitmaps over
preallocated frame-address arrays `ffs_frames[]`/`pt_frames[]`
(paging_init.c), per-process `vheap_blocks` tables, and the counters
`ffs_free_count` (paging_init.c) and `prptr->prffsframes`.
`PHYS_TO_FRAME`/`FRAME_TO_PHYS` come from a header missing from the
snapshot; modelled from the spec: the frame number equals the page number
of the physical address (spec section 4.2), i.e. `addr / PAGE_SIZE`. -/

namespace BitmapVM

/-- A page-directory entry (`pd_t`, include/paging.h): the fields this
subsystem reads or writes (`pd_pres`, `pd_write`, `pd_user`, `pd_base`);
the remaining bits are left zero by `memset` and never touched. -/
structure PDEntry where
  pres : Bool
  write : Bool
  user : Bool
  base : Nat
deriving Repr, DecidableEq

/-- An all-zero PDE (the state `memset(pd, 0, PAGE_SIZE)` leaves and the
explicit clearing loop writes, vcreate.c lines 129-134). -/
def PDEntry.clear : PDEntry := ⟨false, false, false, 0⟩

/-- A page-table entry (`pt_t`, include/paging.h) with every bitfield the
code writes (pagefault_handler.c lines 291-301, vfree.c lines 149-159). -/
structure PTEntry where
  pres : Bool
  write : Bool
  user : Bool
  pwt : Bool
  pcd : Bool
  acc : Bool
  dirty : Bool
  mbz : Bool
  global : Bool
  avail : Nat
  base : Nat
deriving Repr, DecidableEq

/-- An all-zero PTE (`memset(pt, 0, PAGE_SIZE)`). -/
def PTEntry.clear : PTEntry := ⟨false, false, false, false, false, false,
  false, false, false, 0, 0⟩

/-- The page-directory initialization of `vcreate` (vcreate.c lines
103-134): the fresh directory is zeroed (`memset`), kernel PDEs 0-7
(the first 32MB) are copied when present, and entries 8-1023 are
explicitly cleared for the virtual heap. -/
def vcreate_pd_init (kernel_pd : Nat → PDEntry) : Nat → PDEntry :=
  fun i =>
    if i < 8 then
      if (kernel_pd i).pres then kernel_pd i else PDEntry.clear
    else PDEntry.clear

/-- A sample kernel page directory as `init_kernel_pd` builds it
(paging_init.c lines 28-95): at least 16 present identity-mapping PDEs
(64MB minimum), covering the kernel (entries 0-7) and the start of the
FFS region (entry 8 onward). -/
def kpdSample : Nat → PDEntry :=
  fun i => if i < 16 then ⟨true, true, false, 1024 + i⟩ else PDEntry.clear

/-- The machine state of the bitmap-based VM that `pagefault_handler` and
the kill-path cleanup read and write.  Page tables are addressed by their
frame number (the value stored in `pd_base`); `pts b k` is entry `k` of
the table whose frame number is `b`.  `currpidBad` stands for
`isbadpid(currpid) || currpid >= NPROC` (the process table lives outside
this subsystem).  CR3 switching in the C code only changes which address
space the kernel uses to reach the same physical data; it is a no-op on
this state.  Frame contents (the `memset` of freshly mapped pages) are
not represented: the claims on this model concern control flow,
mappings, and counters. -/
structure VMState where
  currpidBad : Bool
  pid : Nat
  prisuser : Bool
  isCurrent : Bool
  kernelPdNull : Bool
  prvheap : Nat
  pd : Option Nat
  pdes : Nat → PDEntry
  pts : Nat → Nat → PTEntry
  ptBitmap : Nat → Bool
  ptFrames : Nat → Nat
  ffsBitmap : Nat → Bool
  ffsFrames : Nat → Nat
  ffsFreeCount : Nat
  blocks : List XinuVM.VBlock
  prffsframes : Nat

/-- Scan a bitmap from index `i` for the first clear bit, over `fuel`
slots (the `for` loops of `get_ffs_frame_phys`/`get_pt_frame_phys`,
paging_init.c lines 109-117 and 158-165). -/
def firstClear (bm : Nat → Bool) : Nat → Nat → Option Nat
  | 0, _ => none
  | fuel + 1, i => if bm i then firstClear bm fuel (i + 1) else some i

/-- Scan a frame-address array for the index holding `addr`
(`free_ffs_frame_phys`/`free_pt_frame_phys`, paging_init.c lines 134-141
and 182-187). -/
def findFrameIdx (frames : Nat → Nat) (addr : Nat) : Nat → Nat → Option Nat
  | 0, _ => none
  | fuel + 1, i =>
    if frames i = addr then some i else findFrameIdx frames addr fuel (i + 1)

/-- `get_pt_frame_phys` (paging_init.c lines 150-169): first clear bit of
`pt_bitmap`, mark used, return `pt_frames[i]`; `none` models the NULL
return when the pool is exhausted. -/
def get_pt_frame (st : VMState) : Option (Nat × VMState) :=
  match firstClear st.ptBitmap XinuVM.MAX_PT_SIZE 0 with
  | none => none
  | some i =>
    some (st.ptFrames i,
      { st with ptBitmap := fun j => if j = i then true else st.ptBitmap j })

/-- `get_ffs_frame_phys` (paging_init.c lines 101-121): first clear bit of
`ffs_bitmap`, mark used, decrement `ffs_free_count`, return
`ffs_frames[i]`. -/
def get_ffs_frame (st : VMState) : Option (Nat × VMState) :=
  match firstClear st.ffsBitmap XinuVM.MAX_FFS_SIZE 0 with
  | none => none
  | some i =>
    some (st.ffsFrames i,
      { st with ffsBitmap := fun j => if j = i then true else st.ffsBitmap j,
                ffsFreeCount := st.ffsFreeCount - 1 })

/-- `free_ffs_frame_phys` (paging_init.c lines 127-144): find the frame by
address, clear its bit, increment `ffs_free_count`; silently does nothing
when the address is not in the pool. -/
def free_ffs_frame (st : VMState) (addr : Nat) : VMState :=
  match findFrameIdx st.ffsFrames addr XinuVM.MAX_FFS_SIZE 0 with
  | none => st
  | some i =>
    { st with ffsBitmap := fun j => if j = i then false else st.ffsBitmap j,
              ffsFreeCount := st.ffsFreeCount + 1 }

/-- `free_pt_frame_phys` (paging_init.c lines 175-191). -/
def free_pt_frame (st : VMState) (addr : Nat) : VMState :=
  match findFrameIdx st.ptFrames addr XinuVM.MAX_PT_SIZE 0 with
  | none => st
  | some i =>
    { st with ptBitmap := fun j => if j = i then false else st.ptBitmap j }

/-- Is `fault_addr` inside some allocated `vheap_blocks` entry?  (The scan
of pagefault_handler.c lines 249-259.) -/
def inAllocatedBlock (blocks : List XinuVM.VBlock) (fault_addr : Nat) : Bool :=
  blocks.any fun b =>
    b.allocated ∧ b.start ≤ fault_addr ∧
      fault_addr < b.start + b.npages * XinuVM.PAGE_SIZE

/-- Outcome of a page fault. -/
inductive PFOutcome where
  /-- `panic(...)`: invalid `currpid` or a kernel-address fault of a
  system process. -/
  | panic
  /-- `P<pid>:: SEGMENTATION_FAULT` printed and `kill(pid)` called. -/
  | segfault
  /-- the segfault message for a system process touching user space with
  `pid == NULLPROC` (the null process, pid 0, is never killed). -/
  | segfaultNoKill
  /-- a fresh FFS frame was mapped and the faulting access will retry. -/
  | mapped
deriving Repr, DecidableEq

/-- The tail of the fault handler once the page table (frame number
`pt_fn`) is in hand (pagefault_handler.c lines 216-333): a present PTE
faults as a protection error (segfault); otherwise the address must lie
in an allocated `vheap_blocks` entry, an FFS frame is allocated
(`get_ffs_frame_export`), and the PTE is written
present/writable/user with the frame number; `prffsframes` is
incremented.  When `get_ffs_frame_export` returns NULL (FFS exhausted)
the handler prints `SEGMENTATION_FAULT` and kills the process — it never
consults the swap engine. -/
def pf_resolve (maxBlocks : Nat) (st : VMState) (fault_addr pt_fn pt_idx : Nat) :
    PFOutcome × VMState :=
  let pte := st.pts pt_fn pt_idx
  if pte.pres then (.segfault, st)
  else if st.currpidBad then (.segfault, st)
  else if st.blocks.length > maxBlocks then (.segfault, st)
  else if ¬inAllocatedBlock st.blocks fault_addr then (.segfault, st)
  else
    match get_ffs_frame st with
    | none => (.segfault, st)
    | some (faddr, st1) =>
      let ffn := faddr / XinuVM.PAGE_SIZE
      let newpte : PTEntry :=
        ⟨true, true, true, false, false, false, false, false, false, 0, ffn⟩
      (.mapped,
        { st1 with
            pts := fun b => if b = pt_fn then
                (fun k => if k = pt_idx then newpte else st1.pts b k)
              else st1.pts b,
            prffsframes := st1.prffsframes + 1 })

/-- `pagefault_handler` (pagefault_handler.c): classify the fault and
resolve it.  `pd_idx`/`pt_idx` are the 10-bit fields of the faulting
linear address; the `>= 1024` safety checks in the C code can never fire
for 10-bit fields and are subsumed by the `% 1024`.  When the PDE is
absent, or present but identity-mapped (`pd_user == 0`), a fresh page
table is allocated from the PT pool, cleared, and installed
present/writable/user. -/
def pagefault_handler (maxBlocks : Nat) (st : VMState) (fault_addr : Nat) :
    PFOutcome × VMState :=
  if st.currpidBad then (.panic, st)
  else if ¬st.prisuser then
    if st.kernelPdNull then (.panic, st)
    else if fault_addr < 0xC0000000 then (.panic, st)
    else if st.pid ≠ 0 then (.segfault, st)
    else (.segfaultNoKill, st)
  else if fault_addr < st.prvheap then (.segfault, st)
  else
    match st.pd with
    | none => (.segfault, st)
    | some _ =>
      let pd_idx := fault_addr >>> 22 % 1024
      let pt_idx := fault_addr >>> 12 % 1024
      let pde := st.pdes pd_idx
      if ¬pde.pres ∨ pde.user = false then
        match get_pt_frame st with
        | none => (.segfault, st)
        | some (ptaddr, st1) =>
          let ptfn := ptaddr / XinuVM.PAGE_SIZE
          let st2 :=
            { st1 with
                pts := fun b => if b = ptfn then (fun _ => PTEntry.clear)
                  else st1.pts b,
                pdes := fun j => if j = pd_idx then ⟨true, true, true, ptfn⟩
                  else st1.pdes j }
          pf_resolve maxBlocks st2 fault_addr ptfn pt_idx
      else
        if pde.base = 0 then (.segfault, st)
        else pf_resolve maxBlocks st fault_addr pde.base pt_idx

/-- One iteration of the inner PTE loop of `kill`'s cleanup (kill.c lines
60-67): a present PTE has its FFS frame freed by physical address. -/
def kill_free_step (ptfn : Nat) (s : VMState) (k : Nat) : VMState :=
  if (s.pts ptfn k).pres then
    free_ffs_frame s ((s.pts ptfn k).base * XinuVM.PAGE_SIZE)
  else s

/-- The inner cleanup of `kill` for one user page table (kill.c lines
52-72): free the FFS frame behind every present PTE, then free the page
table's own PT-pool frame. -/
def kill_free_pt (st : VMState) (ptfn : Nat) : VMState :=
  free_pt_frame ((List.range 1024).foldl (kill_free_step ptfn) st)
    (ptfn * XinuVM.PAGE_SIZE)

/-- One iteration of the PDE walk of `kill` (kill.c lines 50-73): only
present user PDEs (`pd_user == 1`) are processed; identity-mapped kernel
page tables are skipped. -/
def kill_pde_step (s : VMState) (j : Nat) : VMState :=
  if (s.pdes j).pres ∧ (s.pdes j).user then kill_free_pt s (s.pdes j).base
  else s

/-- The paging cleanup of `kill` (kill.c lines 32-86): for a user process
with a page directory, walk PDEs 8-1023; each present user PDE has its
mapped FFS frames freed and its PT frame freed; finally, unless the
killed process is the current one, the page directory's own PT-pool
frame is freed; `prpd` is set to NULL either way. -/
def kill_vm_cleanup (st : VMState) : VMState :=
  match st.pd with
  | none => st
  | some pdaddr =>
    if st.prisuser then
      let st1 := (List.range' 8 1016).foldl kill_pde_step st
      if ¬st.isCurrent then { free_pt_frame st1 pdaddr with pd := none }
      else { st1 with pd := none }
    else st

/-- A concrete state used to exercise the pressure path: a valid user
process whose heap has one large allocated block, with every FFS frame in
use (`ffs_bitmap` all set, `ffs_free_count = 0`) and the PT pool empty.
`ffs_frames[i] = FFS_START + i·PAGE_SIZE` and
`pt_frames[i] = 0x00400000 + i·PAGE_SIZE` as physical layouts. -/
def pressureState : VMState where
  currpidBad := false
  pid := 3
  prisuser := true
  isCurrent := true
  kernelPdNull := false
  prvheap := XinuVM.VHEAP_BASE
  pd := some 0x00400000
  pdes := fun _ => PDEntry.clear
  pts := fun _ _ => PTEntry.clear
  ptBitmap := fun _ => false
  ptFrames := fun i => 0x00400000 + i * XinuVM.PAGE_SIZE
  ffsBitmap := fun _ => true
  ffsFrames := fun i => XinuVM.FFS_START + i * XinuVM.PAGE_SIZE
  ffsFreeCount := 0
  blocks := [⟨XinuVM.VHEAP_BASE, 32768, true⟩]
  prffsframes := 16384

/-- A concrete state for the kill-path cleanup: a user process (not
current) owning one user page table (PT-pool index 0, frame number
0x400) installed at PDE 8, whose entry 0 maps FFS frame 0; the page
directory itself is PT-pool index 1. -/
def killState : VMState where
  currpidBad := false
  pid := 3
  prisuser := true
  isCurrent := false
  kernelPdNull := false
  prvheap := XinuVM.VHEAP_BASE
  pd := some (0x00400000 + 1 * XinuVM.PAGE_SIZE)
  pdes := fun j => if j = 8 then ⟨true, true, true, 0x400⟩ else PDEntry.clear
  pts := fun b k =>
    if b = 0x400 ∧ k = 0 then
      ⟨true, true, true, false, false, false, false, false, false, 0, 0x2000⟩
    else PTEntry.clear
  ptBitmap := fun i => decide (i < 2)
  ptFrames := fun i => 0x00400000 + i * XinuVM.PAGE_SIZE
  ffsBitmap := fun i => decide (i = 0)
  ffsFrames := fun i => XinuVM.FFS_START + i * XinuVM.PAGE_SIZE
  ffsFreeCount := 16383
  blocks := [⟨XinuVM.VHEAP_BASE, 1, true⟩]
  prffsframes := 1

/-- `killState` after `kill` freed the FFS frame mapped by the single
present PTE (FFS index 0). -/
def killState1 : VMState :=
  { killState with
      ffsBitmap := fun j => if j = 0 then false else killState.ffsBitmap j,
      ffsFreeCount := killState.ffsFreeCount + 1 }

/-- `killState1` after `kill` freed the user page table's PT-pool frame
(index 0). -/
def killState2 : VMState :=
  { killState1 with
      ptBitmap := fun j => if j = 0 then false else killState1.ptBitmap j }

/-- `killState2` after `kill` freed the page directory's PT-pool frame
(index 1) and cleared `prpd`. -/
def killStateFinal : VMState :=
  { killState2 with
      ptBitmap := fun j => if j = 1 then false else killState2.ptBitmap j,
      pd := none }

end BitmapVM

/-! ## The ffs_tab-based VM with swapping (system/paging.c)

This subsystem keeps the FFS metadata table `ffs_tab` (used/owner/vaddr/pd
per frame), the counter `ffs_free_count`, the persistent `clock_hand`,
the swap table `swap_tab`, and the PT/PD bump allocator over `pt_space`.
Memory is modelled by three maps: page-directory entries (`pdes`, keyed
by the directory's physical address), page-table entries (`ptes`, keyed
by the table's physical base address), and page contents (`pages`, keyed
by the page's physical base address, giving the byte at each offset).
`isbadpid` consults the process table, which lives outside this
subsystem; it is modelled as the state's `badpid` oracle.  C functions
that can `panic` return `Option` (`none` = panic).  The C shifts
`>> 12` / `<< 12` are written `/ PAGE_SIZE` and `* PAGE_SIZE`. -/

namespace Paging

/-- One slot of `ffs_tab` (paging.c lines 28-38). -/
structure FFSEntry where
  used : Bool
  owner : Int
  vaddr : Nat
  pd : Option Nat
deriving Repr, DecidableEq

/-- One slot of `swap_tab` (paging.c lines 46-52). -/
structure SwapEntry where
  used : Bool
  ffs_frame : Nat
  owner : Int
deriving Repr, DecidableEq

/-- A `pd_t` as paging.c writes it (`pd_pres`, `pd_write`, `pd_user`,
`pd_base`; the other bits stay zero). -/
structure PDE where
  pres : Bool
  write : Bool
  user : Bool
  base : Nat
deriving Repr, DecidableEq

/-- A `pt_t` with every bitfield paging.c touches. -/
structure PTE where
  pres : Bool
  write : Bool
  user : Bool
  pwt : Bool
  pcd : Bool
  acc : Bool
  dirty : Bool
  mbz : Bool
  global : Bool
  avail : Nat
  base : Nat
deriving Repr, DecidableEq

/-- An all-zero PTE (the state `memset` leaves). -/
def PTE.zero : PTE := ⟨false, false, false, false, false, false, false,
  false, false, 0, 0⟩

/-- The machine state of paging.c. -/
structure MState where
  pt_base : Nat
  pt_next : Nat
  ffs_tab : Nat → FFSEntry
  ffs_free_count : Nat
  clock_hand : Nat
  swap_tab : Nat → SwapEntry
  pdes : Nat → Nat → PDE
  ptes : Nat → Nat → PTE
  pages : Nat → Nat → Nat
  badpid : Int → Bool

/-- First index with a clear `used` flag, scanning `fuel` slots from `i`
(the first-fit scans of `ffs_alloc_frame` and `swap_alloc_frame`). -/
def firstFree (used : Nat → Bool) : Nat → Nat → Option Nat
  | 0, _ => none
  | fuel + 1, i =>
    if used i then firstFree used fuel (i + 1) else some i

/-- `alloc_frame` (paging.c lines 232-251): bump `pt_next`, zero the
frame; panics (`none`) when the PT pool is exhausted.  The `memset`
zeroes the frame both as a table of entries and as raw bytes; the model
updates both views of that physical page. -/
def alloc_frame (st : MState) : Option (Nat × MState) :=
  if st.pt_next ≥ XinuVM.MAX_PT_SIZE then none
  else
    let frame := st.pt_base + st.pt_next * XinuVM.PAGE_SIZE
    some (frame,
      { st with
          pt_next := st.pt_next + 1,
          ptes := fun a => if a = frame then (fun _ => PTE.zero) else st.ptes a,
          pages := fun a => if a = frame then (fun _ => 0) else st.pages a })

/-- `get_pte` (paging.c lines 257-273): split `vaddr` 10/10/12; when the
PDE is absent, allocate a page table from the PT pool and install it
present/writable/kernel.  Returns the PTE location as (page-table base
address, entry index) together with the possibly changed state. -/
def get_pte (st : MState) (pd vaddr : Nat) : Option (MState × Nat × Nat) :=
  let pdOff := vaddr >>> 22 % 1024
  let ptOff := vaddr >>> 12 % 1024
  let pde := st.pdes pd pdOff
  if pde.pres then some (st, pde.base * XinuVM.PAGE_SIZE, ptOff)
  else
    match alloc_frame st with
    | none => none
    | some (ptphys, st1) =>
      let newpde : PDE := ⟨true, true, false, ptphys / XinuVM.PAGE_SIZE⟩
      some
        ({ st1 with
            pdes := fun a => if a = pd then
                (fun o => if o = pdOff then newpde else st1.pdes a o)
              else st1.pdes a },
         ptphys / XinuVM.PAGE_SIZE * XinuVM.PAGE_SIZE, ptOff)

/-- Overwrite the PTE at location `loc`. -/
def writePTE (st : MState) (loc : Nat × Nat) (e : PTE) : MState :=
  { st with
      ptes := fun a => if a = loc.1 then
          (fun o => if o = loc.2 then e else st.ptes a o)
        else st.ptes a }

/-- `ffs_alloc_frame` (paging.c lines 110-147): `SYSERR` (`none`) for a
bad pid or a full table; otherwise claim the first free slot, decrement
the (guarded) free counter, zero the frame, and return its physical
address. -/
def ffs_alloc_frame (st : MState) (pid : Int) : Option (Nat × MState) :=
  if st.badpid pid then none
  else
    match firstFree (fun i => (st.ffs_tab i).used) XinuVM.MAX_FFS_SIZE 0 with
    | none => none
    | some i =>
      let frame_addr := XinuVM.FFS_START + i * XinuVM.PAGE_SIZE
      some (frame_addr,
        { st with
            ffs_tab := fun j => if j = i then ⟨true, pid, 0, none⟩
              else st.ffs_tab j,
            ffs_free_count := if 0 < st.ffs_free_count then
                st.ffs_free_count - 1
              else st.ffs_free_count,
            pages := fun a => if a = frame_addr then (fun _ => 0)
              else st.pages a })

/-- `ffs_claim_frame` (paging.c lines 209-224): transfer an evicted frame
to a new owner; does not change `ffs_free_count`. -/
def ffs_claim_frame (st : MState) (frame : Nat) (new_owner : Int) : MState :=
  if frame < XinuVM.FFS_START ∨ frame ≥ XinuVM.FFS_END then st
  else
    let i := (frame - XinuVM.FFS_START) / XinuVM.PAGE_SIZE
    if i ≥ XinuVM.MAX_FFS_SIZE then st
    else
      { st with ffs_tab := fun j => if j = i then ⟨true, new_owner, 0, none⟩
          else st.ffs_tab j }

/-- `swap_alloc_frame` (paging.c lines 471-484): first-fit over
`swap_tab`; returns the swap index, or `none` for the in-band `SYSERR`. -/
def swap_alloc_frame (st : MState) : Option (Nat × MState) :=
  match firstFree (fun i => (st.swap_tab i).used) XinuVM.MAX_SWAP_SIZE 0 with
  | none => none
  | some i =>
    some (i,
      { st with swap_tab := fun j => if j = i then ⟨true, 0, -1⟩
          else st.swap_tab j })

/-- `swap_free_frame` (paging.c lines 490-498). -/
def swap_free_frame (st : MState) (swap_idx : Nat) : MState :=
  if swap_idx ≥ XinuVM.MAX_SWAP_SIZE then st
  else
    { st with swap_tab := fun j => if j = swap_idx then ⟨false, 0, -1⟩
        else st.swap_tab j }

/-- `ffs_index_from_phys` (paging.c lines 505-517). -/
def ffs_index_from_phys (p : Nat) : Option Nat :=
  if p < XinuVM.FFS_START ∨ p ≥ XinuVM.FFS_END then none
  else
    let idx := (p - XinuVM.FFS_START) / XinuVM.PAGE_SIZE
    if idx ≥ XinuVM.MAX_FFS_SIZE then none else some idx

/-- The index order of one full clock sweep starting at hand `h`
(the inner do-while of `swap_select_victim` visits each slot once,
wrapping modulo `MAX_FFS_SIZE`). -/
def clockIdxs (h : Nat) : List Nat :=
  (List.range XinuVM.MAX_FFS_SIZE).map fun k => (h + k) % XinuVM.MAX_FFS_SIZE

/-- One full pass of the clock scan (the do-while of
`swap_select_victim`, paging.c lines 436-458): a used slot with valid
metadata (`pd != NULL`, `vaddr != 0`) whose PTE has `accessed = 0` is
selected (the hand advances past it); otherwise its accessed bit is
cleared and the hand advances.  Result: `none` = panic inside `get_pte`;
`some (some v, st)` = victim selected; `some (none, st)` = pass
completed without selecting. -/
def clock_pass : List Nat → MState → Option (Option Nat × MState)
  | [], st => some (none, st)
  | i :: rest, st =>
    let e := st.ffs_tab i
    let advanced := fun (t : MState) =>
      { t with clock_hand := (i + 1) % XinuVM.MAX_FFS_SIZE }
    if e.used then
      match e.pd with
      | some pdaddr =>
        if e.vaddr ≠ 0 then
          match get_pte st pdaddr e.vaddr with
          | none => none
          | some (st1, loc) =>
            let pte := st1.ptes loc.1 loc.2
            if pte.acc = false then
              some (some (XinuVM.FFS_START + i * XinuVM.PAGE_SIZE),
                advanced st1)
            else
              clock_pass rest (advanced (writePTE st1 loc { pte with acc := false }))
        else clock_pass rest (advanced st)
      | none => clock_pass rest (advanced st)
    else clock_pass rest (advanced st)

/-- `swap_select_victim` (paging.c lines 429-464): up to two full passes
from the persistent `clock_hand`; `some (none, _)` models the `SYSERR`
return after two fruitless passes. -/
def swap_select_victim (st : MState) : Option (Option Nat × MState) :=
  match clock_pass (clockIdxs st.clock_hand) st with
  | none => none
  | some (some v, st1) => some (some v, st1)
  | some (none, st1) => clock_pass (clockIdxs st1.clock_hand) st1

/-- `swap_out` (paging.c lines 524-588): allocate a swap slot (panic when
exhausted), record it, copy the frame's page into the slot, rewrite the
owner's PTE (not-present, in-swap bit `pt_avail = 1`, slot index in the
frame-number field, writable/user/accessed/dirty cleared), and clear the
frame's `vaddr`/`pd` metadata leaving `used` set and the free counter
untouched. -/
def swap_out (st : MState) (ffs_frame_phys : Nat) : Option MState :=
  match ffs_index_from_phys ffs_frame_phys with
  | none => some st
  | some f =>
    let owner := (st.ffs_tab f).owner
    let victim_pd := (st.ffs_tab f).pd
    let victim_vaddr := (st.ffs_tab f).vaddr
    match swap_alloc_frame st with
    | none => none
    | some (s, st1) =>
      let st2 := { st1 with
        swap_tab := fun j => if j = s then ⟨true, ffs_frame_phys, owner⟩
          else st1.swap_tab j }
      let swap_phys := XinuVM.SWAP_START + s * XinuVM.PAGE_SIZE
      let st3 := { st2 with
        pages := fun a => if a = swap_phys then st2.pages ffs_frame_phys
          else st2.pages a }
      let after_pte :=
        match victim_pd with
        | some pdaddr =>
          if victim_vaddr ≠ 0 then
            match get_pte st3 pdaddr victim_vaddr with
            | none => none
            | some (st4, loc) =>
              let pte := st4.ptes loc.1 loc.2
              some (writePTE st4 loc
                { pte with
                    pres := false, avail := 1, base := s, write := false,
                    user := false, acc := false, dirty := false })
          else some st3
        | none => some st3
      match after_pte with
      | none => none
      | some st5 =>
        some { st5 with
          ffs_tab := fun j => if j = f then
              { st5.ffs_tab j with vaddr := 0, pd := none }
            else st5.ffs_tab j }

/-- The tail of `swap_in` (paging.c lines 622-640): copy the slot's page
into the obtained frame, release the slot, return the frame address. -/
def swap_in_finish (st : MState) (swap_idx new_ffs : Nat) :
    Option Nat × MState :=
  let swap_phys := XinuVM.SWAP_START + swap_idx * XinuVM.PAGE_SIZE
  let st1 := { st with
    pages := fun a => if a = new_ffs then st.pages swap_phys
      else st.pages a }
  (some new_ffs, swap_free_frame st1 swap_idx)

/-- `swap_in` (paging.c lines 596-641): validate the slot, allocate an
FFS frame for the slot's owner — evicting a clock victim when the pool
is full — then copy the page back and release the slot.  `none` = panic
(inside `swap_out`/`get_pte`); `some (none, _)` = the in-band `SYSERR`
return. -/
def swap_in (st : MState) (swap_idx : Nat) : Option (Option Nat × MState) :=
  if swap_idx ≥ XinuVM.MAX_SWAP_SIZE ∨ (st.swap_tab swap_idx).used = false then
    some (none, st)
  else
    let owner := (st.swap_tab swap_idx).owner
    match ffs_alloc_frame st owner with
    | some (new_ffs, st1) => some (swap_in_finish st1 swap_idx new_ffs)
    | none =>
      match swap_select_victim st with
      | none => none
      | some (none, st1) => some (none, st1)
      | some (some victim, st1) =>
        match swap_out st1 victim with
        | none => none
        | some st2 =>
          let st3 := ffs_claim_frame st2 victim owner
          some (swap_in_finish st3 swap_idx victim)

/-- One iteration of the FFS loop of `vm_cleanup` (paging.c lines
360-370): clear any slot owned by `pid` and increment the guarded free
counter. -/
def vm_cleanup_ffs_step (pid : Int) (s : MState) (i : Nat) : MState :=
  if (s.ffs_tab i).used = true ∧ (s.ffs_tab i).owner = pid then
    { s with
        ffs_tab := fun j => if j = i then ⟨false, -1, 0, none⟩
          else s.ffs_tab j,
        ffs_free_count := if s.ffs_free_count < XinuVM.MAX_FFS_SIZE then
            s.ffs_free_count + 1
          else s.ffs_free_count }
  else s

/-- One iteration of the swap loop of `vm_cleanup` (paging.c lines
373-377). -/
def vm_cleanup_swap_step (pid : Int) (s : MState) (i : Nat) : MState :=
  if (s.swap_tab i).used = true ∧ (s.swap_tab i).owner = pid then
    swap_free_frame s i
  else s

/-- `vm_cleanup` (paging.c lines 347-385): free every FFS frame and every
swap slot owned by `pid`; PD/PT frames from `pt_space` are deliberately
not freed. -/
def vm_cleanup (st : MState) (pid : Int) : MState :=
  if st.badpid pid then st
  else
    let st1 := (List.range XinuVM.MAX_FFS_SIZE).foldl
      (vm_cleanup_ffs_step pid) st
    (List.range XinuVM.MAX_SWAP_SIZE).foldl (vm_cleanup_swap_step pid) st1

/-- The state a successful `swap_out` of frame `i` (owner `ow`, mapped at
`va` through directory `pda`) produces when `s` is the allocated swap
slot: the slot records the frame and owner, the frame's page is copied
to the slot, the owner's PTE is rewritten to
not-present/in-swap/slot-index, and the frame's metadata is cleared with
`used` left set. -/
def swapOutResult (st : MState) (i s : Nat) (ow : Int) (va pda : Nat) :
    MState :=
  let st3 : MState :=
    { st with
        swap_tab := fun j =>
          if j = s then ⟨true, FFS_START + i * PAGE_SIZE, ow⟩
          else if j = s then ⟨true, 0, -1⟩ else st.swap_tab j,
        pages := fun a =>
          if a = SWAP_START + s * PAGE_SIZE then
            st.pages (FFS_START + i * PAGE_SIZE)
          else st.pages a }
  let loc : Nat × Nat :=
    ((st.pdes pda (va >>> 22 % 1024)).base * PAGE_SIZE, va >>> 12 % 1024)
  let st5 := writePTE st3 loc
    { st.ptes loc.1 loc.2 with
        pres := false, avail := 1, base := s, write := false,
        user := false, acc := false, dirty := false }
  { st5 with
      ffs_tab := fun j =>
        if j = i then { st5.ffs_tab j with vaddr := 0, pd := none }
        else st5.ffs_tab j }

/-- A slot the clock scan can select: used, with valid mapping metadata
(`pd != NULL`, `vaddr != 0`) — the condition of paging.c lines 437-442. -/
def candidate (st : MState) (i : Nat) : Prop :=
  (st.ffs_tab i).used = true ∧ (st.ffs_tab i).pd ≠ none ∧
    (st.ffs_tab i).vaddr ≠ 0

/-- The PTE location `get_pte` resolves for slot `i`'s metadata when the
PDE is present. -/
def locOf (st : MState) (i : Nat) : Nat × Nat :=
  ((st.pdes ((st.ffs_tab i).pd.getD 0)
      ((st.ffs_tab i).vaddr >>> 22 % 1024)).base * PAGE_SIZE,
   (st.ffs_tab i).vaddr >>> 12 % 1024)

/-- Every selectable slot's PDE is present (true in any state where the
metadata was recorded for a mapped page; rules out `get_pte`
allocating — or panicking — during the victim scan). -/
def pdesReady (st : MState) : Prop :=
  ∀ i, i < MAX_FFS_SIZE → candidate st i →
    (st.pdes ((st.ffs_tab i).pd.getD 0)
      ((st.ffs_tab i).vaddr >>> 22 % 1024)).pres = true

/-- The state after the clock hand advances past slot `j` (the
`clock_hand = (clock_hand + 1) % MAX_FFS_SIZE` step of the scan). -/
def handAdvanced (st : MState) (j : Nat) : MState :=
  { st with clock_hand := (j + 1) % MAX_FFS_SIZE }

/-- The state after the scan gives slot `j` a second chance: its PTE's
accessed bit is cleared and the hand advances. -/
def accCleared (st : MState) (j pda : Nat) : MState :=
  { writePTE st
      ((st.pdes pda ((st.ffs_tab j).vaddr >>> 22 % 1024)).base * PAGE_SIZE,
       (st.ffs_tab j).vaddr >>> 12 % 1024)
      { st.ptes
          ((st.pdes pda ((st.ffs_tab j).vaddr >>> 22 % 1024)).base
            * PAGE_SIZE)
          ((st.ffs_tab j).vaddr >>> 12 % 1024) with
          acc := false } with
    clock_hand := (j + 1) % MAX_FFS_SIZE }

/-- A concrete state exercising the swap engine: FFS slot 0 is owned by
pid 5 and mapped at virtual address 0x10000000 through the directory at
0x00400000, whose PDE 64 is present with page-table frame 0x3000; all
other slots are free and the swap table is empty. -/
def engineWitnessState : MState where
  pt_base := 0x00100000
  pt_next := 0
  ffs_tab := fun j =>
    if j = 0 then ⟨true, 5, 0x10000000, some 0x00400000⟩
    else ⟨false, -1, 0, none⟩
  ffs_free_count := 16383
  clock_hand := 0
  swap_tab := fun _ => ⟨false, 0, -1⟩
  pdes := fun a o =>
    if a = 0x00400000 ∧ o = 64 then ⟨true, true, false, 0x3000⟩
    else ⟨false, false, false, 0⟩
  ptes := fun _ _ => PTE.zero
  pages := fun _ _ => 0
  badpid := fun _ => false

/-- The components of the state a clock scan leaves intact relative to a
base state `st`: the PT-pool base, the whole swap table, and the page
contents at every address at or above `FFS_START` (the scan only writes
PTEs, the clock hand, and — when a directory walk allocates a page
table — pages inside the PT pool, which lies below `FFS_START` whenever
`pt_base + MAX_PT_SIZE·PAGE_SIZE ≤ FFS_START`). -/
def scanPreserves (st t : MState) : Prop :=
  t.pt_base = st.pt_base ∧ t.swap_tab = st.swap_tab ∧
    ∀ a, XinuVM.FFS_START ≤ a → t.pages a = st.pages a

/-- The state after evicting `engineWitnessState`'s frame 0 to swap
slot 0. -/
def rtMid : MState := swapOutResult engineWitnessState 0 0 5 0x10000000
  0x00400000

/-- The FFS frame address `swap_in` returns when pulling slot 0 back in
on `rtMid`. -/
def rtFrame : Nat := ((swap_in rtMid 0).getD (none, rtMid)).1.getD 0

/-- The state `swap_in` leaves after pulling slot 0 back in on
`rtMid`. -/
def rtAfter : MState := ((swap_in rtMid 0).getD (none, rtMid)).2

end Paging

/-! ## Frame accounting (paging_debug.c, paging_init.c,
pagefault_handler.c, vfree.c, kill.c, vcreate.c)

`free_ffs_pages()` returns `ffs_free_count` (paging_debug.c line 14)
and `used_ffs_frames(pid)` returns `proctab[pid].prffsframes`
(paging_debug.c line 49).  The accounting abstraction below records
exactly how each quiescent-point-to-quiescent-point operation of the
source updates these counters:

* process creation sets `prffsframes = 0` (vcreate.c line 74);
* mapping a page on a fault claims a free frame, decrementing
  `ffs_free_count` (paging_init.c line 112), and increments the
  process's `prffsframes` (pagefault_handler.c line 311);
* unmapping a page in `vfree` releases the frame, incrementing
  `ffs_free_count` (paging_init.c line 137), and decrements the
  process's `prffsframes` (vfree.c lines 165-166, guarded by
  `prffsframes > 0`);
* `kill` releases one frame per present PTE of the dead process —
  `prffsframes` many at a quiescent point — via `free_ffs_frame_export`
  (kill.c lines 61-68), and the process stops being live;
* `paging_init` starts with all `MAX_FFS_SIZE` frames free
  (paging_init.c line 225) and no live user process. -/

namespace Accounting

/-- The counters C9 speaks about: the global free-frame count and, per
pid, liveness and the `prffsframes` count of mapped FFS frames. -/
structure AState where
  free : Nat
  live : Nat → Bool
  frames : Nat → Nat

/-- `Σ_pid used_ffs_frames(pid)` over the live processes: dead slots
report 0 (`isbadpid` guard in paging_debug.c lines 44-46). -/
def totalUsed (nproc : Nat) (s : AState) : Nat :=
  ((List.range nproc).map (fun p => if s.live p then s.frames p else 0)).sum

/-- One quiescent-point operation's effect on the counters (see the
section comment for the source line of each update). -/
inductive Step (nproc : Nat) : AState → AState → Prop where
  | spawn (s : AState) (p : Nat) (hp : p < nproc)
      (hl : s.live p = false) :
      Step nproc s ⟨s.free,
        fun q => if q = p then true else s.live q,
        fun q => if q = p then 0 else s.frames q⟩
  | mapPage (s : AState) (p : Nat) (hp : p < nproc)
      (hl : s.live p = true) (hf : 0 < s.free) :
      Step nproc s ⟨s.free - 1, s.live,
        fun q => if q = p then s.frames p + 1 else s.frames q⟩
  | freePage (s : AState) (p : Nat) (hp : p < nproc)
      (hl : s.live p = true) (hf : 0 < s.frames p) :
      Step nproc s ⟨s.free + 1, s.live,
        fun q => if q = p then s.frames p - 1 else s.frames q⟩
  | killClean (s : AState) (p : Nat) (hp : p < nproc)
      (hl : s.live p = true) :
      Step nproc s ⟨s.free + s.frames p,
        fun q => if q = p then false else s.live q,
        s.frames⟩

/-- The post-`paging_init` state: every FFS frame free, no live user
process. -/
def initState : AState := ⟨XinuVM.MAX_FFS_SIZE, fun _ => false, fun _ => 0⟩

/-- The quiescent points of a run: states reached from `initState` by
any sequence of complete operations. -/
inductive Reachable (nproc : Nat) : AState → Prop where
  | init : Reachable nproc initState
  | step {s t : AState} : Reachable nproc s → Step nproc s t →
      Reachable nproc t

end Accounting

/-! ## Theorems -/

/-! ### Helper lemmas for the vheap bookkeeping model -/

/-- A projection untouched by every step of a fold is untouched by the
fold. -/
theorem foldl_proj {α β : Type} (g : α → Nat → α) (f : α → β)
    (l : List Nat) (h : ∀ t j, f (g t j) = f t) :
    ∀ s, f (l.foldl g s) = f s := by
  induction l with
  | nil => intro s; rfl
  | cons a l ih =>
    intro s
    rw [List.foldl_cons, ih, h]

/-- A predicate preserved by every step of a fold is preserved by the
fold. -/
theorem foldl_pres {α : Type} (g : α → Nat → α) (P : α → Prop)
    (hpres : ∀ t j, P t → P (g t j)) :
    ∀ (l : List Nat) (s : α), P s → P (l.foldl g s) := by
  intro l
  induction l with
  | nil => intro s h; exact h
  | cons a l ih =>
    intro s h
    rw [List.foldl_cons]
    exact ih _ (hpres s a h)

/-- A predicate established by the fold step at index `i` and preserved
by every step holds after folding over any list containing `i`. -/
theorem foldl_establish {α : Type} (g : α → Nat → α) (P : α → Prop)
    (i : Nat) (hself : ∀ t, P (g t i))
    (hpres : ∀ t j, P t → P (g t j)) :
    ∀ (l : List Nat) (s : α), i ∈ l → P (l.foldl g s) := by
  intro l
  induction l with
  | nil => intro s h; cases h
  | cons a l ih =>
    intro s hmem
    rw [List.foldl_cons]
    rcases List.mem_cons.mp hmem with heq | hmem'
    · subst heq
      exact foldl_pres g P hpres l _ (hself s)
    · exact ih _ hmem'

theorem recordBlock_mem {blocks : List VBlock} {spaceLeft : Bool} {s n : Nat}
    {bs : List VBlock} (h : recordBlock blocks spaceLeft s n = some bs) :
    (⟨s, n, true⟩ : VBlock) ∈ bs := by
  induction blocks generalizing bs with
  | nil =>
    unfold recordBlock at h
    by_cases hs : spaceLeft = true <;> simp [hs] at h <;> simp [← h]
  | cons b rest ih =>
    unfold recordBlock at h
    by_cases hb : b.allocated = true
    · simp [hb] at h
      obtain ⟨cs, hcs, rfl⟩ := h
      exact List.mem_cons_of_mem _ (ih hcs)
    · simp [hb] at h
      simp [← h]

theorem recordBlock_isSome {blocks : List VBlock} {spaceLeft : Bool} {s n : Nat}
    (h : (∃ b ∈ blocks, b.allocated = false) ∨ spaceLeft = true) :
    (recordBlock blocks spaceLeft s n).isSome := by
  induction blocks with
  | nil =>
    rcases h with ⟨b, hb, _⟩ | h
    · simp at hb
    · simp [recordBlock, h]
  | cons b rest ih =>
    by_cases hb : b.allocated = true
    · have hrest : (∃ c ∈ rest, c.allocated = false) ∨ spaceLeft = true := by
        rcases h with ⟨c, hc, hca⟩ | h
        · rcases List.mem_cons.mp hc with rfl | hc
          · rw [hb] at hca; cases hca
          · exact Or.inl ⟨c, hc, hca⟩
        · exact Or.inr h
      have := ih hrest
      obtain ⟨bs, hbs⟩ := Option.isSome_iff_exists.mp this
      unfold recordBlock
      simp [hb, hbs]
    · unfold recordBlock
      simp [hb]

theorem firstOverlap_none_of_le {blocks : List VBlock} {s : Nat}
    (h : ∀ b ∈ blocks, s ≤ b.start) :
    firstOverlap blocks s s = none := by
  induction blocks with
  | nil => rfl
  | cons b rest ih =>
    unfold firstOverlap
    have hb : s ≤ b.start := h b (List.mem_cons_self ..)
    have : ¬(b.allocated = true ∧ ¬(s ≤ b.start ∨ s ≥ b.start + b.npages * PAGE_SIZE)) := by
      rintro ⟨-, hcon⟩; exact hcon (Or.inl hb)
    rw [if_neg this]
    exact ih fun c hc => h c (List.mem_cons_of_mem _ hc)

theorem findExact_iff (blocks : List VBlock) (ptr n : Nat) :
    (findExact blocks ptr n).isSome ↔
      ∃ b ∈ blocks, b.start = ptr ∧ b.npages = n ∧ b.allocated = true := by
  induction blocks with
  | nil => simp [findExact]
  | cons b rest ih =>
    unfold findExact
    by_cases hb : b.start = ptr ∧ b.npages = n ∧ b.allocated = true
    · simp [hb]
    · rw [if_neg hb]
      simp only [Option.isSome_map', List.mem_cons]
      rw [ih]
      constructor
      · rintro ⟨c, hc, h1⟩; exact ⟨c, Or.inr hc, h1⟩
      · rintro ⟨c, (rfl | hc), h1⟩
        · exact absurd h1 hb
        · exact ⟨c, hc, h1⟩

/-! ### Claim theorems on the vheap bookkeeping model -/

/-- C4 counterexample: in the state of a freshly created user process
(empty heap, as `vcreate` installs), `vmalloc(0)` does not return the
error sentinel: it returns the heap base address `VHEAP_BASE` and records
a zero-page allocated block, changing the block list.  The claim asserts
it returns the sentinel and leaves the bookkeeping unchanged. -/
theorem vmalloc_zero_returns_address :
    (vmalloc 256 ⟨true, VHEAP_BASE, [], XINU_PAGES⟩ 0).1 = some VHEAP_BASE ∧
    (vmalloc 256 ⟨true, VHEAP_BASE, [], XINU_PAGES⟩ 0).2.blocks
      = [⟨VHEAP_BASE, 0, true⟩] := by decide

/-- C4 (amended): for a user process whose recorded blocks all start at or
after the heap base and whose table has room (a reusable freed slot or
`count < MAX_VHEAP_BLOCKS`), `vmalloc(0)` succeeds, returning the heap
base address; it records a zero-page allocated block, and the
allocated-page count `prvpages` is unchanged. -/
theorem vmalloc_zero_amended (maxBlocks : Nat) (st : VHeapState)
    (hu : st.isuser = true)
    (hb : ∀ b ∈ st.blocks, st.prvheap ≤ b.start)
    (hroom : (∃ b ∈ st.blocks, b.allocated = false) ∨ st.blocks.length < maxBlocks) :
    (vmalloc maxBlocks st 0).1 = some st.prvheap ∧
    (⟨st.prvheap, 0, true⟩ : VBlock) ∈ (vmalloc maxBlocks st 0).2.blocks ∧
    (vmalloc maxBlocks st 0).2.prvpages = st.prvpages := by
  have hnp : (PAGE_SIZE - 1) / PAGE_SIZE = 0 := by decide
  have hfit : findFit st.blocks 0 (st.prvheap + 0x20000000)
      (st.blocks.length + 1) st.prvheap = some st.prvheap := by
    unfold findFit
    rw [if_pos (by omega)]
    rw [show st.prvheap + 0 * PAGE_SIZE = st.prvheap by omega]
    rw [firstOverlap_none_of_le hb]
  have hrec : (recordBlock st.blocks (decide (st.blocks.length < maxBlocks))
      st.prvheap 0).isSome := by
    apply recordBlock_isSome
    rcases hroom with h | h
    · exact Or.inl h
    · exact Or.inr (decide_eq_true h)
  obtain ⟨bs, hbs⟩ := Option.isSome_iff_exists.mp hrec
  have key : vmalloc maxBlocks st 0
      = (some st.prvheap, { st with blocks := bs, prvpages := st.prvpages + 0 }) := by
    unfold vmalloc
    simp [hu, hnp, hfit, hbs]
  rw [key]
  exact ⟨rfl, recordBlock_mem hbs, by simp⟩

/-- Witness for `vmalloc_zero_amended` at the empty heap of a fresh user
process. -/
theorem vmalloc_zero_amended_witness :
    (true = true ∧ (0 : Nat) < 256) ∧
    (vmalloc 256 ⟨true, VHEAP_BASE, [], XINU_PAGES⟩ 0).1 = some VHEAP_BASE :=
  ⟨⟨rfl, by decide⟩,
   (vmalloc_zero_amended 256 ⟨true, VHEAP_BASE, [], XINU_PAGES⟩ rfl
     (by simp) (Or.inr (by decide))).1⟩

/-- C5: `vmalloc` is first-fit with low-address preference.  Starting from
the empty heap of a freshly created user process (base `VHEAP_BASE`,
`prvpages = XINU_PAGES`), allocations of 8, 4, 2 and 8 pages return
`A`, `A+8·4096`, `A+12·4096`, `A+14·4096` with `A = VHEAP_BASE`; after
freeing the middle 4-page allocation, `vmalloc(2·4096)` returns
`A+8·4096` and the next `vmalloc(8·4096)` returns `A+22·4096`.  Stated
for any slot-table capacity `MAX_VHEAP_BLOCKS > 4` (the scenario occupies
five slots at its peak). -/
theorem vmalloc_first_fit_scenario (maxBlocks : Nat) (hm : 4 < maxBlocks) :
    vmalloc maxBlocks ⟨true, VHEAP_BASE, [], XINU_PAGES⟩ (8 * PAGE_SIZE)
      = (some VHEAP_BASE,
         ⟨true, VHEAP_BASE, [⟨VHEAP_BASE, 8, true⟩], XINU_PAGES + 8⟩) ∧
    vmalloc maxBlocks
        ⟨true, VHEAP_BASE, [⟨VHEAP_BASE, 8, true⟩], XINU_PAGES + 8⟩
        (4 * PAGE_SIZE)
      = (some (VHEAP_BASE + 8 * PAGE_SIZE),
         ⟨true, VHEAP_BASE,
          [⟨VHEAP_BASE, 8, true⟩, ⟨VHEAP_BASE + 8 * PAGE_SIZE, 4, true⟩],
          XINU_PAGES + 12⟩) ∧
    vmalloc maxBlocks
        ⟨true, VHEAP_BASE,
         [⟨VHEAP_BASE, 8, true⟩, ⟨VHEAP_BASE + 8 * PAGE_SIZE, 4, true⟩],
         XINU_PAGES + 12⟩
        (2 * PAGE_SIZE)
      = (some (VHEAP_BASE + 12 * PAGE_SIZE),
         ⟨true, VHEAP_BASE,
          [⟨VHEAP_BASE, 8, true⟩, ⟨VHEAP_BASE + 8 * PAGE_SIZE, 4, true⟩,
           ⟨VHEAP_BASE + 12 * PAGE_SIZE, 2, true⟩],
          XINU_PAGES + 14⟩) ∧
    vmalloc maxBlocks
        ⟨true, VHEAP_BASE,
         [⟨VHEAP_BASE, 8, true⟩, ⟨VHEAP_BASE + 8 * PAGE_SIZE, 4, true⟩,
          ⟨VHEAP_BASE + 12 * PAGE_SIZE, 2, true⟩],
         XINU_PAGES + 14⟩
        (8 * PAGE_SIZE)
      = (some (VHEAP_BASE + 14 * PAGE_SIZE),
         ⟨true, VHEAP_BASE,
          [⟨VHEAP_BASE, 8, true⟩, ⟨VHEAP_BASE + 8 * PAGE_SIZE, 4, true⟩,
           ⟨VHEAP_BASE + 12 * PAGE_SIZE, 2, true⟩,
           ⟨VHEAP_BASE + 14 * PAGE_SIZE, 8, true⟩],
          XINU_PAGES + 22⟩) ∧
    vfree
        ⟨true, VHEAP_BASE,
         [⟨VHEAP_BASE, 8, true⟩, ⟨VHEAP_BASE + 8 * PAGE_SIZE, 4, true⟩,
          ⟨VHEAP_BASE + 12 * PAGE_SIZE, 2, true⟩,
          ⟨VHEAP_BASE + 14 * PAGE_SIZE, 8, true⟩],
         XINU_PAGES + 22⟩
        (VHEAP_BASE + 8 * PAGE_SIZE) (4 * PAGE_SIZE)
      = (true,
         ⟨true, VHEAP_BASE,
          [⟨VHEAP_BASE, 8, true⟩, ⟨VHEAP_BASE + 8 * PAGE_SIZE, 4, false⟩,
           ⟨VHEAP_BASE + 12 * PAGE_SIZE, 2, true⟩,
           ⟨VHEAP_BASE + 14 * PAGE_SIZE, 8, true⟩],
          XINU_PAGES + 18⟩) ∧
    vmalloc maxBlocks
        ⟨true, VHEAP_BASE,
         [⟨VHEAP_BASE, 8, true⟩, ⟨VHEAP_BASE + 8 * PAGE_SIZE, 4, false⟩,
          ⟨VHEAP_BASE + 12 * PAGE_SIZE, 2, true⟩,
          ⟨VHEAP_BASE + 14 * PAGE_SIZE, 8, true⟩],
         XINU_PAGES + 18⟩
        (2 * PAGE_SIZE)
      = (some (VHEAP_BASE + 8 * PAGE_SIZE),
         ⟨true, VHEAP_BASE,
          [⟨VHEAP_BASE, 8, true⟩, ⟨VHEAP_BASE + 8 * PAGE_SIZE, 2, true⟩,
           ⟨VHEAP_BASE + 12 * PAGE_SIZE, 2, true⟩,
           ⟨VHEAP_BASE + 14 * PAGE_SIZE, 8, true⟩],
          XINU_PAGES + 20⟩) ∧
    (vmalloc maxBlocks
        ⟨true, VHEAP_BASE,
         [⟨VHEAP_BASE, 8, true⟩, ⟨VHEAP_BASE + 8 * PAGE_SIZE, 2, true⟩,
          ⟨VHEAP_BASE + 12 * PAGE_SIZE, 2, true⟩,
          ⟨VHEAP_BASE + 14 * PAGE_SIZE, 8, true⟩],
         XINU_PAGES + 20⟩
        (8 * PAGE_SIZE)).1
      = some (VHEAP_BASE + 22 * PAGE_SIZE) := by
  have h0 : decide (0 < maxBlocks) = true := decide_eq_true (by omega)
  have h1 : decide (1 < maxBlocks) = true := decide_eq_true (by omega)
  have h2 : decide (2 < maxBlocks) = true := decide_eq_true (by omega)
  have h3 : decide (3 < maxBlocks) = true := decide_eq_true (by omega)
  have h4 : decide (4 < maxBlocks) = true := decide_eq_true hm
  refine ⟨?_, ?_, ?_, ?_, ?_, ?_, ?_⟩ <;>
    simp [vmalloc, vfree, findFit, firstOverlap, recordBlock, findExact,
      freeSlot, PAGE_SIZE, VHEAP_BASE, XINU_PAGES, h0, h1, h2, h3, h4]

/-- Witness for `vmalloc_first_fit_scenario` at `maxBlocks = 5`. -/
theorem vmalloc_first_fit_scenario_witness :
    4 < 5 ∧
    (vmalloc 5 ⟨true, VHEAP_BASE, [], XINU_PAGES⟩ (8 * PAGE_SIZE)).1
      = some VHEAP_BASE :=
  ⟨by decide, by rw [(vmalloc_first_fit_scenario 5 (by decide)).1]⟩

/-- C10: `vfree(ptr, nbytes)` succeeds exactly on an exact match of a live
allocation: for a user process it returns `OK` iff some allocated block
has start `ptr` and page count `(nbytes + PAGE_SIZE - 1) / PAGE_SIZE`
(the byte count rounded up to pages); when it fails it returns the error
sentinel leaving the bookkeeping unchanged, so freeing a proper sub-range
or a union of allocations (whose start or rounded size matches no single
block) fails with no state change.  The bound `hw` keeps the `Nat` model
inside the domain where the C `uint32` rounding does not wrap. -/
theorem vfree_exact_match (st : VHeapState) (ptr nbytes : Nat)
    (hu : st.isuser = true) (hw : nbytes + PAGE_SIZE - 1 < 2 ^ 32) :
    ((vfree st ptr nbytes).1 = true ↔
      ∃ b ∈ st.blocks, b.start = ptr ∧
        b.npages = (nbytes + PAGE_SIZE - 1) / PAGE_SIZE ∧ b.allocated = true) ∧
    ((vfree st ptr nbytes).1 = false → vfree st ptr nbytes = (false, st)) := by
  unfold vfree
  rw [hu]
  simp only [Bool.not_true, Bool.false_eq_true, if_false]
  rcases hfe : findExact st.blocks ptr ((nbytes + PAGE_SIZE - 1) / PAGE_SIZE)
    with - | i
  · constructor
    · rw [← findExact_iff]
      simp [hfe]
    · intro; rfl
  · constructor
    · rw [← findExact_iff]
      simp [hfe]
    · simp

/-- Witness for `vfree_exact_match`: a concrete user state with one
allocated 4-page block; freeing it with a 2-page request fails
(sub-range), freeing with the exact size succeeds. -/
theorem vfree_exact_match_witness :
    ((true : Bool) = true ∧ 2 * 4096 + PAGE_SIZE - 1 < 2 ^ 32) ∧
    ((vfree ⟨true, VHEAP_BASE, [⟨VHEAP_BASE, 4, true⟩], 4⟩
        VHEAP_BASE (2 * 4096)).1 = true ↔
      ∃ b ∈ [(⟨VHEAP_BASE, 4, true⟩ : VBlock)], b.start = VHEAP_BASE ∧
        b.npages = (2 * 4096 + PAGE_SIZE - 1) / PAGE_SIZE ∧
        b.allocated = true) := by
  refine ⟨⟨rfl, by decide⟩, ?_⟩
  exact (vfree_exact_match ⟨true, VHEAP_BASE, [⟨VHEAP_BASE, 4, true⟩], 4⟩
    VHEAP_BASE (2 * 4096) rfl (by decide)).1

/-! ### Claim theorems on the bitmap-based VM -/

namespace BitmapVM

/-- A bitmap with every bit set has no clear slot (the exhausted-pool
case of the allocator scans). -/
theorem firstClear_all_set (bm : Nat → Bool) (h : ∀ j, bm j = true) :
    ∀ fuel i, firstClear bm fuel i = none := by
  intro fuel
  induction fuel with
  | zero => intro i; rfl
  | succ n ih =>
    intro i
    show (if bm i = true then firstClear bm n (i + 1) else some i) = none
    simp only [h i, if_true]
    exact ih (i + 1)

/-- `get_ffs_frame_phys` returns NULL when every FFS frame is in use. -/
theorem get_ffs_frame_none (st : VMState) (h : ∀ j, st.ffsBitmap j = true) :
    get_ffs_frame st = none := by
  unfold get_ffs_frame
  rw [firstClear_all_set st.ffsBitmap h]

/-- A fold whose step fixes every state satisfying an invariant `P`
(preserved trivially, since fixed states do not change) leaves the
initial state unchanged. -/
theorem foldl_fixed {α : Type} (g : α → Nat → α) (P : α → Prop)
    (l : List Nat) (s : α) (hs : P s)
    (h : ∀ t, P t → ∀ j ∈ l, g t j = t) : l.foldl g s = s := by
  induction l with
  | nil => rfl
  | cons a l ih =>
    rw [List.foldl_cons, h s hs a (List.mem_cons_self a l)]
    exact ih (fun t ht j hj => h t ht j (List.mem_cons_of_mem a hj))

/-- The tail of the fault handler when the faulting page is unmapped,
lies in an allocated heap block, and the FFS pool is exhausted: the
handler segfaults (pagefault_handler.c lines 269-275), leaving the state
unchanged. -/
theorem pf_resolve_ffs_exhausted (maxB : Nat) (st : VMState)
    (fa ptfn ptidx : Nat)
    (h0 : (st.pts ptfn ptidx).pres = false)
    (h1 : st.currpidBad = false)
    (h2 : ¬st.blocks.length > maxB)
    (h3 : inAllocatedBlock st.blocks fa = true)
    (h4 : ∀ j, st.ffsBitmap j = true) :
    pf_resolve maxB st fa ptfn ptidx = (.segfault, st) := by
  unfold pf_resolve
  simp only [h0, h1, h2, h3, get_ffs_frame_none st h4, Bool.false_eq_true,
    if_false, not_true, Bool.not_eq_true, if_neg, ite_false, ite_true,
    not_false_eq_true, if_true]

/-- The head of the fault handler on the path that installs a fresh page
table: a valid user process faulting at a heap address whose PDE is
absent or identity-mapped reaches `pf_resolve` with a freshly allocated,
cleared page table installed at the PDE (pagefault_handler.c lines
113-210). -/
theorem pagefault_handler_fresh_pt (maxB : Nat) (st st1 : VMState)
    (fa pta pda : Nat)
    (h1 : st.currpidBad = false) (h2 : st.prisuser = true)
    (h3 : ¬fa < st.prvheap) (h4 : st.pd = some pda)
    (h5 : (st.pdes (fa >>> 22 % 1024)).pres = false ∨
      (st.pdes (fa >>> 22 % 1024)).user = false)
    (h6 : get_pt_frame st = some (pta, st1)) :
    pagefault_handler maxB st fa
      = pf_resolve maxB
          { st1 with
              pts := fun b => if b = pta / XinuVM.PAGE_SIZE then
                  (fun _ => PTEntry.clear)
                else st1.pts b,
              pdes := fun j => if j = fa >>> 22 % 1024 then
                  ⟨true, true, true, pta / XinuVM.PAGE_SIZE⟩
                else st1.pdes j }
          fa (pta / XinuVM.PAGE_SIZE) (fa >>> 12 % 1024) := by
  unfold pagefault_handler
  rw [h1, h2, h4]
  simp only [Bool.false_eq_true, if_false, not_true, Bool.not_true,
    Bool.not_eq_true, ite_false, ite_true, if_neg, h3]
  rw [if_pos h5, h6]

/-- C1: evaluation of the fault handler at the failing input.  In
`pressureState` the faulting address `VHEAP_BASE` lies inside an
allocated heap block and the FFS pool is exhausted
(`ffs_free_count = 0`), yet the handler resolves the fault by printing
`SEGMENTATION_FAULT` and killing the process: it performs no clock
victim selection, no eviction, and reports no `OUT_OF_MEMORY`; no page is
mapped (`prffsframes` is unchanged).  The swap machinery of paging.c
(`swap_select_victim`, `swap_out`) is never reached from
`pagefault_handler`. -/
theorem pagefault_pressure_kills_with_segfault :
    (pagefault_handler 256 pressureState XinuVM.VHEAP_BASE).1
      = PFOutcome.segfault ∧
    pressureState.ffsFreeCount = 0 ∧
    inAllocatedBlock pressureState.blocks XinuVM.VHEAP_BASE = true ∧
    (pagefault_handler 256 pressureState XinuVM.VHEAP_BASE).2.prffsframes
      = pressureState.prffsframes := by
  have h6 : get_pt_frame pressureState
      = some (0x00400000,
        { pressureState with
            ptBitmap := fun j => if j = 0 then true
              else pressureState.ptBitmap j }) := rfl
  have hstep := pagefault_handler_fresh_pt 256 pressureState _
    XinuVM.VHEAP_BASE 0x00400000 0x00400000 rfl rfl (by decide) rfl
    (Or.inl (by decide)) h6
  rw [hstep, pf_resolve_ffs_exhausted 256 _ _ _ _ rfl rfl (by decide)
    (by decide) (fun j => rfl)]
  exact ⟨rfl, rfl, rfl, rfl⟩

/-- C2 counterexample: `init_kernel_pd` leaves PDE 8 (the first
directory slot of the FFS region at 32MB) present in the system page
directory, but `vcreate` clears it in the new process directory instead
of copying it: not every PDE is copied, and the FFS/swap identity
mappings are not inherited. -/
theorem vcreate_pd_drops_kernel_pde8 :
    (kpdSample 8).pres = true ∧
    vcreate_pd_init kpdSample 8 ≠ kpdSample 8 ∧
    (vcreate_pd_init kpdSample 8).pres = false := by decide

/-- C2 (amended): `vcreate` allocates the new directory from the PT pool,
zeroes it, copies only kernel PDEs 0-7 (the identity mappings of the
first 32MB of kernel memory) when present, and clears entries 8-1023, so
the new process inherits the kernel identity mappings but not the
FFS/swap-region ones (the fault path switches to the kernel directory to
reach those frames instead). -/
theorem vcreate_pd_copies_first_8 (kpd : Nat → PDEntry) (i : Nat) :
    (i < 8 → (kpd i).pres = true → vcreate_pd_init kpd i = kpd i) ∧
    (i < 8 → (kpd i).pres = false → vcreate_pd_init kpd i = PDEntry.clear) ∧
    (8 ≤ i → vcreate_pd_init kpd i = PDEntry.clear) := by
  unfold vcreate_pd_init
  refine ⟨fun h1 h2 => ?_, fun h1 h2 => ?_, fun h1 => ?_⟩
  · simp [h1, h2]
  · simp [h1, h2]
  · rw [if_neg (by omega)]

/-- Witness for `vcreate_pd_copies_first_8` on the sample kernel
directory, at a copied entry (0) and a cleared entry (8). -/
theorem vcreate_pd_copies_first_8_witness :
    ((0 : Nat) < 8 ∧ (kpdSample 0).pres = true ∧
      vcreate_pd_init kpdSample 0 = kpdSample 0) ∧
    (8 ≤ (8 : Nat) ∧ vcreate_pd_init kpdSample 8 = PDEntry.clear) :=
  ⟨⟨by decide, by decide,
    (vcreate_pd_copies_first_8 kpdSample 0).1 (by decide) (by decide)⟩,
   ⟨by decide, (vcreate_pd_copies_first_8 kpdSample 8).2.2 (by decide)⟩⟩

/-- Full evaluation of the `kill` cleanup on `killState`: the single
mapped FFS frame is freed, then the user page table's PT-pool frame
(index 0), then the page directory's PT-pool frame (index 1). -/
theorem kill_vm_cleanup_killState_eq :
    kill_vm_cleanup killState = killStateFinal := by
  have hinner : (List.range 1024).foldl (kill_free_step 0x400) killState
      = killState1 := by
    rw [List.range_eq_range', show (1024 : Nat) = 1023 + 1 from rfl,
      List.range'_succ, List.foldl_cons]
    have h0 : kill_free_step 0x400 killState 0 = killState1 := rfl
    rw [h0]
    refine foldl_fixed _ (fun t => t.pts = killState.pts) _ _ rfl ?_
    intro t ht j hj
    have hj1 : 0 + 1 ≤ j := (List.mem_range'_1.mp hj).1
    have hpres : (t.pts 0x400 j).pres = false := by
      rw [ht]
      have hj0 : ¬(j = 0) := by omega
      simp [killState, hj0, PTEntry.clear]
    simp [kill_free_step, hpres]
  have hpt : kill_free_pt killState 0x400 = killState2 := by
    unfold kill_free_pt
    rw [hinner]
    rfl
  have h8 : kill_pde_step killState 8 = kill_free_pt killState 0x400 := by
    unfold kill_pde_step
    rw [show killState.pdes 8 = ⟨true, true, true, 0x400⟩ from rfl]
    simp
  have houter : (List.range' 8 1016).foldl kill_pde_step killState
      = killState2 := by
    rw [show (1016 : Nat) = 1015 + 1 from rfl, List.range'_succ,
      List.foldl_cons, h8, hpt]
    refine foldl_fixed _ (fun t => t.pdes = killState.pdes) _ _ rfl ?_
    intro t ht j hj
    have hj9 : 8 + 1 ≤ j := (List.mem_range'_1.mp hj).1
    have hpres : (t.pdes j).pres = false := by
      rw [ht]
      have hne : ¬(j = 8) := by omega
      simp [killState, hne, PDEntry.clear]
    simp [kill_pde_step, hpres]
  have hshape : kill_vm_cleanup killState
      = { free_pt_frame ((List.range' 8 1016).foldl kill_pde_step killState)
            (0x00400000 + 1 * XinuVM.PAGE_SIZE) with pd := none } := rfl
  rw [hshape, houter]
  rfl

/-- C3 counterexample: the kill path does free PT-pool frames.  In
`killState` (a dead-to-be user process owning one user page table at PT
pool index 0 and its directory at index 1), `kill`'s cleanup clears
both PT-pool bitmap bits: the page table's frame and the page
directory's frame are returned to the PT pool, contradicting the claim
that teardown frees no PT-pool frame. -/
theorem kill_frees_pt_pool_frames :
    killState.ptBitmap 0 = true ∧ killState.ptBitmap 1 = true ∧
    (kill_vm_cleanup killState).ptBitmap 0 = false ∧
    (kill_vm_cleanup killState).ptBitmap 1 = false := by
  rw [kill_vm_cleanup_killState_eq]
  exact ⟨rfl, rfl, rfl, rfl⟩

end BitmapVM

/-! ### Helper lemmas and claim theorems on the paging.c model -/

namespace Paging

/-- A successful first-fit scan returns an index in range whose slot is
free. -/
theorem firstFree_some {p : Nat → Bool} :
    ∀ {fuel i j : Nat}, firstFree p fuel i = some j →
      i ≤ j ∧ j < i + fuel ∧ p j = false := by
  intro fuel
  induction fuel with
  | zero => intro i j h; cases h
  | succ n ih =>
    intro i j h
    unfold firstFree at h
    by_cases hp : p i = true
    · simp only [hp, if_true] at h
      obtain ⟨h1, h2, h3⟩ := ih h
      exact ⟨by omega, by omega, h3⟩
    · rw [Bool.not_eq_true] at hp
      rw [hp] at h
      simp at h
      exact ⟨by omega, by omega, by rw [← h]; exact hp⟩

/-- A failed first-fit scan means every scanned slot is occupied. -/
theorem firstFree_none {p : Nat → Bool} :
    ∀ {fuel i : Nat}, firstFree p fuel i = none →
      ∀ j, i ≤ j → j < i + fuel → p j = true := by
  intro fuel
  induction fuel with
  | zero => intro i h j h1 h2; omega
  | succ n ih =>
    intro i h j h1 h2
    unfold firstFree at h
    by_cases hp : p i = true
    · simp only [hp, if_true] at h
      rcases Nat.eq_or_lt_of_le h1 with rfl | hlt
      · exact hp
      · exact ih h j hlt (by omega)
    · rw [Bool.not_eq_true] at hp
      rw [hp] at h
      simp at h

/-- `ffs_index_from_phys` recovers the index of an in-range frame
address. -/
theorem ffs_index_from_phys_eq (i : Nat) (hi : i < MAX_FFS_SIZE) :
    ffs_index_from_phys (FFS_START + i * PAGE_SIZE) = some i := by
  unfold ffs_index_from_phys
  have h1 : ¬(FFS_START + i * PAGE_SIZE < FFS_START ∨
      FFS_START + i * PAGE_SIZE ≥ FFS_END) := by
    simp only [FFS_START, FFS_END, PAGE_SIZE, MAX_FFS_SIZE] at hi ⊢
    omega
  rw [if_neg h1]
  have h2 : FFS_START + i * PAGE_SIZE - FFS_START = i * PAGE_SIZE := by omega
  simp only [h2]
  have h3 : i * PAGE_SIZE / PAGE_SIZE = i :=
    Nat.mul_div_cancel i (by norm_num [PAGE_SIZE])
  simp only [h3]
  rw [if_neg (by omega)]

/-- A successful `swap_out` of frame `i` computes `swapOutResult`
(paging.c lines 524-588), provided the frame carries valid metadata, its
PDE is present (so the walker does not allocate), and `s` is the first
free swap slot. -/
theorem swap_out_eq (st : MState) (i s : Nat) (ow : Int) (va pda : Nat)
    (hi : i < MAX_FFS_SIZE)
    (hE : st.ffs_tab i = ⟨true, ow, va, some pda⟩)
    (hva : va ≠ 0)
    (hpde : (st.pdes pda (va >>> 22 % 1024)).pres = true)
    (hscan : firstFree (fun k => (st.swap_tab k).used) MAX_SWAP_SIZE 0
      = some s) :
    swap_out st (FFS_START + i * PAGE_SIZE)
      = some (swapOutResult st i s ow va pda) := by
  have hidx := ffs_index_from_phys_eq i hi
  have halloc : swap_alloc_frame st = some (s,
      { st with swap_tab := fun j => if j = s then ⟨true, 0, -1⟩
          else st.swap_tab j }) := by
    unfold swap_alloc_frame
    rw [hscan]
  unfold swap_out get_pte swapOutResult
  simp only [hidx, halloc, hE, hva, hpde, ne_eq, not_false_eq_true, if_true]

/-- C7: for every FFS frame `i` with valid mapping metadata (used, owner
`ow`, non-null directory `pda`, nonzero virtual address `va`), with its
PDE present and `s` the first free swap slot, `swap_out` rewrites the
owner's PTE to: present cleared, the software in-swap bit (`pt_avail`)
set to 1, the swap slot index `s` stored in the 20-bit frame-number
field, and writable/user/accessed/dirty cleared; it clears the frame's
`vaddr` and `pd` metadata but leaves `used = true` (owner untouched) and
leaves `ffs_free_count` unchanged. -/
theorem swap_out_rewrites_pte_and_metadata (st : MState) (i s : Nat)
    (ow : Int) (va pda : Nat) (hi : i < MAX_FFS_SIZE)
    (hE : st.ffs_tab i = ⟨true, ow, va, some pda⟩) (hva : va ≠ 0)
    (hpde : (st.pdes pda (va >>> 22 % 1024)).pres = true)
    (hscan : firstFree (fun k => (st.swap_tab k).used) MAX_SWAP_SIZE 0
      = some s) :
    swap_out st (FFS_START + i * PAGE_SIZE)
      = some (swapOutResult st i s ow va pda) ∧
    (swapOutResult st i s ow va pda).ptes
        ((st.pdes pda (va >>> 22 % 1024)).base * PAGE_SIZE)
        (va >>> 12 % 1024)
      = { st.ptes ((st.pdes pda (va >>> 22 % 1024)).base * PAGE_SIZE)
            (va >>> 12 % 1024) with
          pres := false, avail := 1, base := s, write := false,
          user := false, acc := false, dirty := false } ∧
    (swapOutResult st i s ow va pda).ffs_tab i = ⟨true, ow, 0, none⟩ ∧
    (swapOutResult st i s ow va pda).ffs_free_count = st.ffs_free_count := by
  refine ⟨swap_out_eq st i s ow va pda hi hE hva hpde hscan, ?_, ?_, rfl⟩
  · simp [swapOutResult, writePTE]
  · simp [swapOutResult, writePTE, hE]

/-- Witness for `swap_out_rewrites_pte_and_metadata` on
`engineWitnessState` (frame 0, swap slot 0). -/
theorem swap_out_rewrites_pte_and_metadata_witness :
    (0 < MAX_FFS_SIZE ∧
     engineWitnessState.ffs_tab 0 = ⟨true, 5, 0x10000000, some 0x00400000⟩ ∧
     (0x10000000 : Nat) ≠ 0 ∧
     (engineWitnessState.pdes 0x00400000
        (0x10000000 >>> 22 % 1024)).pres = true ∧
     firstFree (fun k => (engineWitnessState.swap_tab k).used)
        MAX_SWAP_SIZE 0 = some 0) ∧
    swap_out engineWitnessState (FFS_START + 0 * PAGE_SIZE)
      = some (swapOutResult engineWitnessState 0 0 5 0x10000000 0x00400000) :=
  ⟨⟨by decide, rfl, by decide, by decide, rfl⟩,
   (swap_out_rewrites_pte_and_metadata engineWitnessState 0 0 5 0x10000000
     0x00400000 (by decide) rfl (by decide) (by decide) rfl).1⟩

/-- `get_pte` is pure (no allocation, no panic) when the PDE is
present. -/
theorem get_pte_pure (st : MState) (pda va : Nat)
    (h : (st.pdes pda (va >>> 22 % 1024)).pres = true) :
    get_pte st pda va
      = some (st, (st.pdes pda (va >>> 22 % 1024)).base * PAGE_SIZE,
          va >>> 12 % 1024) := by
  unfold get_pte
  simp only [h, if_true]

/-- A non-candidate slot is skipped by the clock scan. -/
theorem clock_pass_cons_skip (j : Nat) (rest : List Nat) (st : MState)
    (h : ¬candidate st j) :
    clock_pass (j :: rest) st = clock_pass rest (handAdvanced st j) := by
  unfold candidate at h
  push_neg at h
  unfold handAdvanced
  conv_lhs => unfold clock_pass
  by_cases hu : (st.ffs_tab j).used = true
  · cases hpd : (st.ffs_tab j).pd with
    | none => simp [hu, hpd]
    | some pda =>
      have hv0 : (st.ffs_tab j).vaddr = 0 := by
        by_contra hne
        exact hne (h hu (by rw [hpd]; exact fun hh => Option.noConfusion hh))
      simp [hu, hpd, hv0]
  · have hu2 : (st.ffs_tab j).used = false := by
      rwa [Bool.not_eq_true] at hu
    simp [hu2]

/-- A candidate slot with a present PDE is either selected (accessed bit
clear) or given a second chance (accessed bit cleared). -/
theorem clock_pass_cons_cand (j : Nat) (rest : List Nat) (st : MState)
    (pda : Nat)
    (hu : (st.ffs_tab j).used = true)
    (hpd : (st.ffs_tab j).pd = some pda)
    (hva : (st.ffs_tab j).vaddr ≠ 0)
    (hpres : (st.pdes pda
      ((st.ffs_tab j).vaddr >>> 22 % 1024)).pres = true) :
    clock_pass (j :: rest) st =
      if (st.ptes
            ((st.pdes pda ((st.ffs_tab j).vaddr >>> 22 % 1024)).base
              * PAGE_SIZE)
            ((st.ffs_tab j).vaddr >>> 12 % 1024)).acc = false then
        some (some (FFS_START + j * PAGE_SIZE), handAdvanced st j)
      else clock_pass rest (accCleared st j pda) := by
  unfold handAdvanced accCleared
  conv_lhs => unfold clock_pass
  simp only [hu, hpd, hva, ne_eq, not_false_eq_true, if_true, ite_true]
  rw [get_pte_pure st pda _ hpres]

/-- The location `locOf` in terms of the destructured metadata. -/
theorem locOf_eq (st : MState) (j pda : Nat)
    (hpd : (st.ffs_tab j).pd = some pda) :
    locOf st j
      = ((st.pdes pda ((st.ffs_tab j).vaddr >>> 22 % 1024)).base
           * PAGE_SIZE,
         (st.ffs_tab j).vaddr >>> 12 % 1024) := by
  unfold locOf
  rw [hpd]
  rfl

/-- `pdesReady` transfers along states with equal metadata and
directories. -/
theorem pdesReady_congr {st st' : MState} (hf : st'.ffs_tab = st.ffs_tab)
    (hp : st'.pdes = st.pdes) (h : pdesReady st) : pdesReady st' := by
  intro i hi hc
  rw [hf, hp]
  refine h i hi ?_
  unfold candidate at hc ⊢
  rwa [hf] at hc

/-- The second-chance step really clears the accessed bit at the slot's
own PTE location. -/
theorem accCleared_self_acc (st : MState) (j pda : Nat) :
    ((accCleared st j pda).ptes
      ((st.pdes pda ((st.ffs_tab j).vaddr >>> 22 % 1024)).base * PAGE_SIZE)
      ((st.ffs_tab j).vaddr >>> 12 % 1024)).acc = false := by
  unfold accCleared writePTE
  simp

/-- A full clock pass over in-range indices never panics; when it
completes without selecting, metadata and directories are untouched,
accessed bits are only ever cleared, and every visited candidate ends
with its accessed bit clear. -/
theorem clock_pass_total (l : List Nat) :
    ∀ st : MState, (∀ j ∈ l, j < MAX_FFS_SIZE) → pdesReady st →
      ∃ r, clock_pass l st = some r ∧
        (r.1 = none →
          r.2.ffs_tab = st.ffs_tab ∧ r.2.pdes = st.pdes ∧
          (∀ a o, (r.2.ptes a o).acc = true → (st.ptes a o).acc = true) ∧
          (∀ i ∈ l, candidate st i →
            (r.2.ptes (locOf st i).1 (locOf st i).2).acc = false)) := by
  induction l with
  | nil =>
    intro st _ _
    exact ⟨(none, st), rfl, fun _ => ⟨rfl, rfl, fun a o h => h, by simp⟩⟩
  | cons j rest ih =>
    intro st hl hready
    by_cases hc : candidate st j
    · obtain ⟨hu, hpdne, hva⟩ := hc
      obtain ⟨pda, hpd⟩ := Option.ne_none_iff_exists'.mp hpdne
      have hpres : (st.pdes pda
          ((st.ffs_tab j).vaddr >>> 22 % 1024)).pres = true := by
        have h2 := hready j (hl j (List.mem_cons_self ..)) ⟨hu, hpdne, hva⟩
        rwa [hpd] at h2
      have hloceq := locOf_eq st j pda hpd
      have hstep := clock_pass_cons_cand j rest st pda hu hpd hva hpres
      by_cases hacc : (st.ptes
          ((st.pdes pda ((st.ffs_tab j).vaddr >>> 22 % 1024)).base
            * PAGE_SIZE)
          ((st.ffs_tab j).vaddr >>> 12 % 1024)).acc = false
      · rw [if_pos hacc] at hstep
        exact ⟨_, hstep, by simp⟩
      · rw [if_neg hacc] at hstep
        obtain ⟨r, hr, hprops⟩ := ih (accCleared st j pda)
          (fun k hk => hl k (List.mem_cons_of_mem _ hk))
          (pdesReady_congr rfl rfl hready)
        refine ⟨r, by rw [hstep]; exact hr, ?_⟩
        intro hnone
        obtain ⟨hf, hp, hmono, hvisited⟩ := hprops hnone
        have hacc2 : ∀ a o, ((accCleared st j pda).ptes a o).acc = true →
            (st.ptes a o).acc = true := by
          intro a o h
          unfold accCleared writePTE at h
          by_cases ha : a = (st.pdes pda
              ((st.ffs_tab j).vaddr >>> 22 % 1024)).base * PAGE_SIZE
          · by_cases ho : o = (st.ffs_tab j).vaddr >>> 12 % 1024
            · simp [ha, ho] at h
            · simpa [ha, ho] using h
          · simpa [ha] using h
        refine ⟨hf, hp, fun a o h => hacc2 a o (hmono a o h), ?_⟩
        intro i hi hcand
        rcases List.mem_cons.mp hi with heq | hmem
        · rw [heq]
          by_contra hne
          rw [Bool.not_eq_false] at hne
          have h3 := hmono (locOf st j).1 (locOf st j).2 hne
          rw [hloceq] at h3
          have h4 : ((accCleared st j pda).ptes
              ((st.pdes pda
                 ((st.ffs_tab j).vaddr >>> 22 % 1024)).base * PAGE_SIZE)
              ((st.ffs_tab j).vaddr >>> 12 % 1024)).acc = true := h3
          rw [accCleared_self_acc st j pda] at h4
          exact Bool.false_ne_true h4
        · have hcand2 : candidate (accCleared st j pda) i := hcand
          have h4 := hvisited i hmem hcand2
          have hlocpr : locOf (accCleared st j pda) i = locOf st i := rfl
          rwa [hlocpr] at h4
    · have hstep := clock_pass_cons_skip j rest st hc
      obtain ⟨r, hr, hprops⟩ := ih (handAdvanced st j)
        (fun k hk => hl k (List.mem_cons_of_mem _ hk))
        (pdesReady_congr rfl rfl hready)
      refine ⟨r, by rw [hstep]; exact hr, ?_⟩
      intro hnone
      obtain ⟨hf, hp, hmono, hvisited⟩ := hprops hnone
      refine ⟨hf, hp, hmono, ?_⟩
      intro i hi hcand
      rcases List.mem_cons.mp hi with rfl | hmem
      · exact absurd hcand hc
      · exact hvisited i hmem hcand

/-- The second-chance step never sets an accessed bit. -/
theorem accCleared_preserves_accfalse (st : MState) (j pda a o : Nat)
    (h : (st.ptes a o).acc = false) :
    ((accCleared st j pda).ptes a o).acc = false := by
  unfold accCleared writePTE
  by_cases h1 : a = (st.pdes pda
      ((st.ffs_tab j).vaddr >>> 22 % 1024)).base * PAGE_SIZE
  · by_cases h2 : o = (st.ffs_tab j).vaddr >>> 12 % 1024
    · simp [h1, h2]
    · simpa [h1, h2] using h
  · simpa [h1] using h

/-- A clock pass selects a victim whenever some visited candidate's
accessed bit is already clear. -/
theorem clock_pass_selects (l : List Nat) :
    ∀ st : MState, (∀ j ∈ l, j < MAX_FFS_SIZE) → pdesReady st →
      (∃ i ∈ l, candidate st i ∧
        (st.ptes (locOf st i).1 (locOf st i).2).acc = false) →
      ∃ v st', clock_pass l st = some (some v, st') := by
  induction l with
  | nil =>
    intro st _ _ hw
    simp at hw
  | cons j rest ih =>
    intro st hl hready hw
    by_cases hc : candidate st j
    · obtain ⟨hu, hpdne, hva⟩ := hc
      obtain ⟨pda, hpd⟩ := Option.ne_none_iff_exists'.mp hpdne
      have hpres : (st.pdes pda
          ((st.ffs_tab j).vaddr >>> 22 % 1024)).pres = true := by
        have h2 := hready j (hl j (List.mem_cons_self ..)) ⟨hu, hpdne, hva⟩
        rwa [hpd] at h2
      have hloceq := locOf_eq st j pda hpd
      have hstep := clock_pass_cons_cand j rest st pda hu hpd hva hpres
      by_cases hacc : (st.ptes
          ((st.pdes pda ((st.ffs_tab j).vaddr >>> 22 % 1024)).base
            * PAGE_SIZE)
          ((st.ffs_tab j).vaddr >>> 12 % 1024)).acc = false
      · rw [if_pos hacc] at hstep
        exact ⟨_, _, hstep⟩
      · rw [if_neg hacc] at hstep
        rw [hstep]
        apply ih (accCleared st j pda)
          (fun k hk => hl k (List.mem_cons_of_mem _ hk))
          (pdesReady_congr rfl rfl hready)
        obtain ⟨i, hi, hci, hai⟩ := hw
        rcases List.mem_cons.mp hi with heq | hmem
        · exfalso
          rw [heq, hloceq] at hai
          exact hacc hai
        · have hci2 : candidate (accCleared st j pda) i := hci
          refine ⟨i, hmem, hci2, ?_⟩
          have hlocpr : locOf (accCleared st j pda) i = locOf st i := rfl
          rw [hlocpr]
          exact accCleared_preserves_accfalse st j pda _ _ hai
    · rw [clock_pass_cons_skip j rest st hc]
      apply ih (handAdvanced st j)
        (fun k hk => hl k (List.mem_cons_of_mem _ hk))
        (pdesReady_congr rfl rfl hready)
      obtain ⟨i, hi, hci, hai⟩ := hw
      rcases List.mem_cons.mp hi with heq | hmem
      · exact absurd (heq ▸ hci) hc
      · exact ⟨i, hmem, hci, hai⟩

/-- A clock pass over slots without mapping metadata completes without
selecting and leaves the metadata table unchanged. -/
theorem clock_pass_none_of_no_candidate (l : List Nat) :
    ∀ st : MState, (∀ i ∈ l, ¬candidate st i) →
      ∃ st', clock_pass l st = some (none, st') ∧
        st'.ffs_tab = st.ffs_tab := by
  induction l with
  | nil => intro st _; exact ⟨st, rfl, rfl⟩
  | cons j rest ih =>
    intro st h
    rw [clock_pass_cons_skip j rest st (h j (List.mem_cons_self ..))]
    obtain ⟨st', h1, h2⟩ := ih (handAdvanced st j)
      (fun i hi hc => h i (List.mem_cons_of_mem _ hi) hc)
    exact ⟨st', h1, h2⟩

/-- Every index produced by a clock sweep is in range. -/
theorem clockIdxs_lt (h : Nat) : ∀ j ∈ clockIdxs h, j < MAX_FFS_SIZE := by
  intro j hj
  unfold clockIdxs at hj
  obtain ⟨k, -, rfl⟩ := List.mem_map.mp hj
  exact Nat.mod_lt _ (by norm_num [MAX_FFS_SIZE])

/-- A clock sweep from any hand position visits every in-range index. -/
theorem mem_clockIdxs (h i : Nat) (hi : i < MAX_FFS_SIZE) :
    i ∈ clockIdxs h := by
  unfold clockIdxs
  rw [List.mem_map]
  refine ⟨(i + MAX_FFS_SIZE - h % MAX_FFS_SIZE) % MAX_FFS_SIZE,
    List.mem_range.mpr (Nat.mod_lt _ (by norm_num [MAX_FFS_SIZE])), ?_⟩
  simp only [MAX_FFS_SIZE] at hi ⊢
  omega

/-- C6: the clock victim selector terminates after walking the FFS table
at most twice — the embedding consists of exactly the two bounded passes
of the C loop (`while (passes < 2)`), each visiting each slot once — and,
provided every metadata-carrying slot's PDE is present (`pdesReady`,
which rules out the walker allocating inside the scan): whenever at
least one used slot carries valid mapping metadata the selector returns
a victim frame, and it returns the failure sentinel (`SYSERR`, modelled
by the inner `none`) when no slot carries mapping metadata. -/
theorem swap_select_victim_finds_victim (st : MState)
    (hready : pdesReady st) :
    ((∃ i, i < MAX_FFS_SIZE ∧ candidate st i) →
      ∃ v st', swap_select_victim st = some (some v, st')) ∧
    ((∀ i, i < MAX_FFS_SIZE → ¬candidate st i) →
      ∃ st', swap_select_victim st = some (none, st')) := by
  constructor
  · rintro ⟨i, hi, hci⟩
    obtain ⟨⟨ro, st1⟩, hr, hprops⟩ := clock_pass_total
      (clockIdxs st.clock_hand) st (clockIdxs_lt _) hready
    cases ro with
    | some v =>
      refine ⟨v, st1, ?_⟩
      unfold swap_select_victim
      rw [hr]
    | none =>
      obtain ⟨hf, hp, hmono, hvisited⟩ := hprops rfl
      have hci1 : candidate st1 i := by
        unfold candidate
        rw [hf]
        exact hci
      have hloc1 : locOf st1 i = locOf st i := by
        unfold locOf
        rw [hf, hp]
      have hai : (st1.ptes (locOf st1 i).1 (locOf st1 i).2).acc = false := by
        rw [hloc1]
        exact hvisited i (mem_clockIdxs st.clock_hand i hi) hci
      obtain ⟨v, st2, h2⟩ := clock_pass_selects (clockIdxs st1.clock_hand)
        st1 (clockIdxs_lt _) (pdesReady_congr hf hp hready)
        ⟨i, mem_clockIdxs st1.clock_hand i hi, hci1, hai⟩
      refine ⟨v, st2, ?_⟩
      unfold swap_select_victim
      rw [hr]
      exact h2
  · intro hno
    obtain ⟨st1, h1, hf⟩ := clock_pass_none_of_no_candidate
      (clockIdxs st.clock_hand) st
      (fun i hi hc => hno i (clockIdxs_lt _ i hi) hc)
    obtain ⟨st2, h2, -⟩ := clock_pass_none_of_no_candidate
      (clockIdxs st1.clock_hand) st1
      (fun i hi hc => hno i (clockIdxs_lt _ i hi) (by
        unfold candidate at hc ⊢
        rwa [hf] at hc))
    refine ⟨st2, ?_⟩
    unfold swap_select_victim
    rw [h1]
    exact h2

/-- Witness for `swap_select_victim_finds_victim` on
`engineWitnessState`, whose slot 0 carries valid mapping metadata. -/
theorem swap_select_victim_finds_victim_witness :
    (pdesReady engineWitnessState ∧
     ∃ i, i < MAX_FFS_SIZE ∧ candidate engineWitnessState i) ∧
    ∃ v st', swap_select_victim engineWitnessState = some (some v, st') := by
  have hready : pdesReady engineWitnessState := by
    intro i hi hc
    by_cases h0 : i = 0
    · subst h0
      decide
    · exfalso
      have h2 := hc.1
      simp [engineWitnessState, h0] at h2
  have hcand : candidate engineWitnessState 0 := by
    refine ⟨rfl, ?_, by decide⟩
    simp [engineWitnessState]
  exact ⟨⟨hready, 0, by decide, hcand⟩,
    (swap_select_victim_finds_victim engineWitnessState hready).1
      ⟨0, by decide, hcand⟩⟩

/-! #### Effect lemmas for the swap engine's building blocks -/

theorem scanPreserves_refl (st : MState) : scanPreserves st st :=
  ⟨rfl, rfl, fun _ _ => rfl⟩

/-- A successful `swap_alloc_frame` returns an in-range free slot and
marks exactly that slot used. -/
theorem swap_alloc_frame_effects (t ta : MState) (s2 : Nat)
    (h : swap_alloc_frame t = some (s2, ta)) :
    s2 < XinuVM.MAX_SWAP_SIZE ∧ (t.swap_tab s2).used = false ∧
    ta = { t with swap_tab := fun j => if j = s2 then ⟨true, 0, -1⟩
        else t.swap_tab j } := by
  unfold swap_alloc_frame at h
  cases hs : firstFree (fun i => (t.swap_tab i).used)
      XinuVM.MAX_SWAP_SIZE 0 with
  | none => rw [hs] at h; cases h
  | some k =>
    rw [hs] at h
    rw [Option.some.injEq, Prod.mk.injEq] at h
    obtain ⟨hk, hta⟩ := h
    subst hk
    obtain ⟨-, hlt, hfree⟩ := firstFree_some hs
    exact ⟨by omega, hfree, hta.symm⟩

/-- A successful `alloc_frame` hands out the next PT-pool frame, which
lies below `FFS_START` when the pool does; only `pt_next`, the new
frame's PTEs and the new frame's page bytes change. -/
theorem alloc_frame_effects (st t t1 : MState) (f : Nat)
    (hpool : st.pt_base + XinuVM.MAX_PT_SIZE * XinuVM.PAGE_SIZE
      ≤ XinuVM.FFS_START)
    (hbase : t.pt_base = st.pt_base)
    (h : alloc_frame t = some (f, t1)) :
    f < XinuVM.FFS_START ∧ t1.pt_base = st.pt_base ∧
    t1.swap_tab = t.swap_tab ∧
    ∀ a, XinuVM.FFS_START ≤ a → t1.pages a = t.pages a := by
  unfold alloc_frame at h
  by_cases hg : t.pt_next ≥ XinuVM.MAX_PT_SIZE
  · rw [if_pos hg] at h; cases h
  · rw [if_neg hg] at h
    rw [Option.some.injEq, Prod.mk.injEq] at h
    obtain ⟨hf, ht⟩ := h
    have hflt : f < XinuVM.FFS_START := by
      rw [← hf, hbase]
      have hn : t.pt_next < XinuVM.MAX_PT_SIZE := by omega
      simp only [XinuVM.MAX_PT_SIZE, XinuVM.PAGE_SIZE,
        XinuVM.FFS_START] at hpool hn ⊢
      omega
    refine ⟨hflt, ?_, ?_, ?_⟩
    · rw [← ht]; exact hbase
    · rw [← ht]
    · intro a ha
      rw [← ht]
      have hne : ¬(a = t.pt_base + t.pt_next * XinuVM.PAGE_SIZE) := by
        rw [hf]; omega
      show (if a = t.pt_base + t.pt_next * XinuVM.PAGE_SIZE
          then (fun _ => 0) else t.pages a) = t.pages a
      rw [if_neg hne]

/-- A successful `get_pte` walk leaves the PT-pool base, the swap table,
and all pages at or above `FFS_START` intact (relative to a base state
whose PT pool lies below the FFS region). -/
theorem get_pte_effects (st t t1 : MState) (pd va : Nat) (loc : Nat × Nat)
    (hpool : st.pt_base + XinuVM.MAX_PT_SIZE * XinuVM.PAGE_SIZE
      ≤ XinuVM.FFS_START)
    (hbase : t.pt_base = st.pt_base)
    (h : get_pte t pd va = some (t1, loc)) :
    t1.pt_base = st.pt_base ∧ t1.swap_tab = t.swap_tab ∧
    ∀ a, XinuVM.FFS_START ≤ a → t1.pages a = t.pages a := by
  unfold get_pte at h
  by_cases hpres : (t.pdes pd (va >>> 22 % 1024)).pres = true
  · simp only [hpres, if_true] at h
    rw [Option.some.injEq, Prod.mk.injEq] at h
    obtain ⟨ht, -⟩ := h
    rw [← ht]
    exact ⟨hbase, rfl, fun _ _ => rfl⟩
  · simp only [hpres, Bool.false_eq_true, if_false] at h
    cases hA : alloc_frame t with
    | none => rw [hA] at h; cases h
    | some p =>
      obtain ⟨f, ta⟩ := p
      rw [hA] at h
      simp only [Option.some.injEq, Prod.mk.injEq] at h
      obtain ⟨ht, -⟩ := h
      obtain ⟨-, hb, hsw, hpg⟩ := alloc_frame_effects st t ta f hpool hbase hA
      rw [← ht]
      exact ⟨hb, hsw, hpg⟩

/-- `ffs_claim_frame` changes only the FFS table. -/
theorem ffs_claim_frame_effects (t : MState) (fr : Nat) (ow : Int) :
    (ffs_claim_frame t fr ow).pages = t.pages ∧
    (ffs_claim_frame t fr ow).swap_tab = t.swap_tab := by
  unfold ffs_claim_frame
  dsimp only
  split
  · exact ⟨rfl, rfl⟩
  · split
    · exact ⟨rfl, rfl⟩
    · exact ⟨rfl, rfl⟩

/-- A successful `ffs_alloc_frame` returns an FFS-range frame address,
leaves the swap table intact, and changes pages only at the new
frame. -/
theorem ffs_alloc_frame_effects (t t1 : MState) (ow : Int) (fr : Nat)
    (h : ffs_alloc_frame t ow = some (fr, t1)) :
    (∃ j, j < XinuVM.MAX_FFS_SIZE ∧
      fr = XinuVM.FFS_START + j * XinuVM.PAGE_SIZE) ∧
    t1.swap_tab = t.swap_tab ∧
    ∀ a, a ≠ fr → t1.pages a = t.pages a := by
  unfold ffs_alloc_frame at h
  by_cases hb : t.badpid ow = true
  · rw [hb, if_pos rfl] at h; cases h
  · rw [Bool.not_eq_true] at hb
    rw [hb] at h
    simp only [Bool.false_eq_true, if_false] at h
    cases hs : firstFree (fun i => (t.ffs_tab i).used)
        XinuVM.MAX_FFS_SIZE 0 with
    | none => rw [hs] at h; cases h
    | some j =>
      rw [hs] at h
      simp only [Option.some.injEq, Prod.mk.injEq] at h
      obtain ⟨hfr, ht⟩ := h
      obtain ⟨-, hlt, -⟩ := firstFree_some hs
      refine ⟨⟨j, by omega, hfr.symm⟩, ?_, ?_⟩
      · rw [← ht]
      · intro a ha
        rw [← ht]
        have hne : ¬(a = XinuVM.FFS_START + j * XinuVM.PAGE_SIZE) := by
          rw [hfr]; exact ha
        show (if a = XinuVM.FFS_START + j * XinuVM.PAGE_SIZE
            then (fun _ => 0) else t.pages a) = t.pages a
        rw [if_neg hne]

/-- A completed clock pass leaves the PT-pool base, the swap table and
all pages at or above `FFS_START` intact, and any victim it reports is
an in-range FFS frame address. -/
theorem clock_pass_effects (st : MState)
    (hpool : st.pt_base + XinuVM.MAX_PT_SIZE * XinuVM.PAGE_SIZE
      ≤ XinuVM.FFS_START) :
    ∀ (l : List Nat) (t : MState) (r : Option Nat) (t1 : MState),
      clock_pass l t = some (r, t1) →
      (∀ i ∈ l, i < XinuVM.MAX_FFS_SIZE) →
      scanPreserves st t →
      scanPreserves st t1 ∧
        ∀ v, r = some v → ∃ j, j < XinuVM.MAX_FFS_SIZE ∧
          v = XinuVM.FFS_START + j * XinuVM.PAGE_SIZE := by
  intro l
  induction l with
  | nil =>
    intro t r t1 h hb hp
    unfold clock_pass at h
    rw [Option.some.injEq, Prod.mk.injEq] at h
    obtain ⟨hr, ht1⟩ := h
    rw [← ht1]
    exact ⟨hp, fun v hv => by rw [← hr] at hv; cases hv⟩
  | cons i rest ih =>
    intro t r t1 h hb hp
    have hb' : ∀ j ∈ rest, j < XinuVM.MAX_FFS_SIZE :=
      fun j hj => hb j (List.mem_cons_of_mem _ hj)
    unfold clock_pass at h
    dsimp only at h
    by_cases hu : (t.ffs_tab i).used = true
    · rw [if_pos hu] at h
      cases hpd : (t.ffs_tab i).pd with
      | none =>
        rw [hpd] at h
        exact ih _ _ _ h hb' ⟨hp.1, hp.2.1, hp.2.2⟩
      | some pdaddr =>
        rw [hpd] at h
        dsimp only at h
        split at h
        · cases hg : get_pte t pdaddr (t.ffs_tab i).vaddr with
          | none => rw [hg] at h; dsimp only at h; cases h
          | some p =>
            obtain ⟨t2, loc⟩ := p
            rw [hg] at h
            dsimp only at h
            have hp2 : scanPreserves st t2 := by
              obtain ⟨h1, h2, h3⟩ :=
                get_pte_effects st t t2 pdaddr (t.ffs_tab i).vaddr loc
                  hpool hp.1 hg
              exact ⟨h1, h2.trans hp.2.1,
                fun a ha => (h3 a ha).trans (hp.2.2 a ha)⟩
            by_cases hacc : (t2.ptes loc.1 loc.2).acc = false
            · rw [if_pos hacc] at h
              rw [Option.some.injEq, Prod.mk.injEq] at h
              obtain ⟨hr, ht1⟩ := h
              rw [← ht1]
              refine ⟨⟨hp2.1, hp2.2.1, hp2.2.2⟩, ?_⟩
              intro v hv
              rw [← hr, Option.some.injEq] at hv
              exact ⟨i, hb i (List.mem_cons_self i rest), hv.symm⟩
            · rw [if_neg hacc] at h
              exact ih _ _ _ h hb' ⟨hp2.1, hp2.2.1, hp2.2.2⟩
        · exact ih _ _ _ h hb' ⟨hp.1, hp.2.1, hp.2.2⟩
    · rw [if_neg hu] at h
      exact ih _ _ _ h hb' ⟨hp.1, hp.2.1, hp.2.2⟩

/-- The two-pass victim selector leaves the PT-pool base, the swap table
and all high pages intact, and any victim it reports is an in-range FFS
frame address. -/
theorem swap_select_victim_effects (st : MState)
    (hpool : st.pt_base + XinuVM.MAX_PT_SIZE * XinuVM.PAGE_SIZE
      ≤ XinuVM.FFS_START)
    (r : Option Nat) (t1 : MState)
    (h : swap_select_victim st = some (r, t1)) :
    scanPreserves st t1 ∧
      ∀ v, r = some v → ∃ j, j < XinuVM.MAX_FFS_SIZE ∧
        v = XinuVM.FFS_START + j * XinuVM.PAGE_SIZE := by
  unfold swap_select_victim at h
  cases h1 : clock_pass (clockIdxs st.clock_hand) st with
  | none => rw [h1] at h; cases h
  | some p =>
    obtain ⟨r1, t'⟩ := p
    rw [h1] at h
    have e1 := clock_pass_effects st hpool _ st r1 t' h1
      (clockIdxs_lt st.clock_hand) (scanPreserves_refl st)
    cases r1 with
    | some v =>
      dsimp only at h
      rw [Option.some.injEq, Prod.mk.injEq] at h
      obtain ⟨hr, ht1⟩ := h
      rw [← ht1]
      refine ⟨e1.1, ?_⟩
      intro v' hv'
      rw [← hr, Option.some.injEq] at hv'
      exact hv' ▸ e1.2 v rfl
    | none =>
      dsimp only at h
      exact clock_pass_effects st hpool _ t' r t1 h
        (clockIdxs_lt t'.clock_hand) e1.1

/-- A successful `swap_out` never touches the page bytes of a swap slot
that is already in use: the eviction copies into a freshly allocated
(free) slot, and any page-table allocation during the PTE walk writes
below `FFS_START`. -/
theorem swap_out_pages_at_slot (st t t2 : MState) (s v : Nat)
    (hpool : st.pt_base + XinuVM.MAX_PT_SIZE * XinuVM.PAGE_SIZE
      ≤ XinuVM.FFS_START)
    (hbase : t.pt_base = st.pt_base)
    (hus : (t.swap_tab s).used = true)
    (h : swap_out t v = some t2) :
    ∀ b, t2.pages (XinuVM.SWAP_START + s * XinuVM.PAGE_SIZE) b
      = t.pages (XinuVM.SWAP_START + s * XinuVM.PAGE_SIZE) b := by
  unfold swap_out at h
  cases hF : ffs_index_from_phys v with
  | none =>
    rw [hF] at h
    dsimp only at h
    injection h with h
    rw [← h]
    intro b
    rfl
  | some f =>
    rw [hF] at h
    dsimp only at h
    cases hA : swap_alloc_frame t with
    | none => rw [hA] at h; dsimp only at h; cases h
    | some p =>
      obtain ⟨s2, ta⟩ := p
      rw [hA] at h
      dsimp only at h
      obtain ⟨hs2, hfree, hta⟩ := swap_alloc_frame_effects t ta s2 hA
      subst hta
      have hneq : ¬(XinuVM.SWAP_START + s * XinuVM.PAGE_SIZE
          = XinuVM.SWAP_START + s2 * XinuVM.PAGE_SIZE) := by
        intro he
        have hss : s = s2 := by
          simp only [XinuVM.PAGE_SIZE] at he
          omega
        rw [← hss] at hfree
        rw [hus] at hfree
        cases hfree
      cases hpd : (t.ffs_tab f).pd with
      | none =>
        rw [hpd] at h
        dsimp only at h
        injection h with h
        rw [← h]
        intro b
        dsimp only
        rw [if_neg hneq]
      | some pdaddr =>
        rw [hpd] at h
        dsimp only at h
        split at h
        · cases h
        · rename_i st5 hafter
          injection h with h
          rw [← h]
          split at hafter
          · split at hafter
            · cases hafter
            · rename_i st4 loc hg
              injection hafter with hafter
              rw [← hafter]
              intro b
              dsimp only [writePTE]
              obtain ⟨-, -, h3⟩ := get_pte_effects st _ st4 pdaddr
                (t.ffs_tab f).vaddr loc hpool (by exact hbase) hg
              rw [h3 (XinuVM.SWAP_START + s * XinuVM.PAGE_SIZE)
                (by simp only [XinuVM.FFS_START, XinuVM.SWAP_START]; omega)]
              dsimp only
              rw [if_neg hneq]
          · injection hafter with hafter
            rw [← hafter]
            intro b
            dsimp only
            rw [if_neg hneq]

/-- Any successful `swap_in` of a used slot `s` (in a state whose PT
pool lies below the FFS region) returns an FFS-range frame whose bytes
equal the slot's stored page bytes, and releases slot `s`.  This covers
both paths of paging.c lines 596-641: the direct `ffs_alloc_frame`
path and the eviction path through `swap_select_victim`/`swap_out`. -/
theorem swap_in_success (st' : MState) (s : Nat)
    (hs : s < XinuVM.MAX_SWAP_SIZE)
    (hused : (st'.swap_tab s).used = true)
    (hpool : st'.pt_base + XinuVM.MAX_PT_SIZE * XinuVM.PAGE_SIZE
      ≤ XinuVM.FFS_START)
    (newf : Nat) (st'' : MState)
    (h : swap_in st' s = some (some newf, st'')) :
    (∀ b, st''.pages newf b
      = st'.pages (XinuVM.SWAP_START + s * XinuVM.PAGE_SIZE) b) ∧
    (st''.swap_tab s).used = false ∧
    XinuVM.FFS_START ≤ newf ∧ newf < XinuVM.FFS_END := by
  unfold swap_in at h
  rw [if_neg (by push_neg; exact ⟨by omega, by simp [hused]⟩)] at h
  dsimp only at h
  cases hA : ffs_alloc_frame st' (st'.swap_tab s).owner with
  | some p =>
    obtain ⟨fr, t1⟩ := p
    rw [hA] at h
    dsimp only [swap_in_finish] at h
    injection h with h
    injection h with hfr hst
    injection hfr with hfr
    subst hfr
    rw [← hst]
    obtain ⟨⟨j, hj, hjfr⟩, hsw, hpg⟩ := ffs_alloc_frame_effects st' t1 _ fr hA
    have hne : XinuVM.SWAP_START + s * XinuVM.PAGE_SIZE ≠ fr := by
      rw [hjfr]
      simp only [XinuVM.SWAP_START, XinuVM.FFS_START, XinuVM.PAGE_SIZE,
        XinuVM.MAX_FFS_SIZE] at hj ⊢
      omega
    refine ⟨?_, ?_, ?_, ?_⟩
    · intro b
      dsimp only [swap_free_frame]
      rw [if_neg (by omega)]
      dsimp only
      rw [if_pos rfl, hpg _ hne]
    · dsimp only [swap_free_frame]
      rw [if_neg (by omega)]
      dsimp only
      rw [if_pos rfl]
    · rw [hjfr]
      exact Nat.le_add_right _ _
    · rw [hjfr]
      simp only [XinuVM.FFS_START, XinuVM.FFS_END, XinuVM.PAGE_SIZE,
        XinuVM.MAX_FFS_SIZE] at hj ⊢
      omega
  | none =>
    rw [hA] at h
    dsimp only at h
    cases hV : swap_select_victim st' with
    | none => rw [hV] at h; dsimp only at h; cases h
    | some p =>
      obtain ⟨r1, t1⟩ := p
      rw [hV] at h
      cases r1 with
      | none =>
        dsimp only at h
        injection h with h
        injection h with ha hb
        cases ha
      | some v =>
        dsimp only at h
        cases hO : swap_out t1 v with
        | none => rw [hO] at h; dsimp only at h; cases h
        | some t2 =>
          rw [hO] at h
          dsimp only [swap_in_finish] at h
          injection h with h
          injection h with hfr hst
          injection hfr with hfr
          subst hfr
          rw [← hst]
          obtain ⟨hsp, hshape⟩ :=
            swap_select_victim_effects st' hpool (some v) t1 hV
          obtain ⟨j, hj, hvj⟩ := hshape v rfl
          have hus1 : (t1.swap_tab s).used = true := by
            rw [hsp.2.1]; exact hused
          have hpg2 := swap_out_pages_at_slot st' t1 t2 s v hpool hsp.1
            hus1 hO
          have hclaim := ffs_claim_frame_effects t2 v (st'.swap_tab s).owner
          have hge : XinuVM.FFS_START
              ≤ XinuVM.SWAP_START + s * XinuVM.PAGE_SIZE := by
            simp only [XinuVM.FFS_START, XinuVM.SWAP_START]
            omega
          refine ⟨?_, ?_, ?_, ?_⟩
          · intro b
            dsimp only [swap_free_frame]
            rw [if_neg (by omega)]
            dsimp only
            rw [if_pos rfl, hclaim.1, hpg2 b, hsp.2.2 _ hge]
          · dsimp only [swap_free_frame]
            rw [if_neg (by omega)]
            dsimp only
            rw [if_pos rfl]
          · rw [hvj]
            exact Nat.le_add_right _ _
          · rw [hvj]
            simp only [XinuVM.FFS_START, XinuVM.FFS_END, XinuVM.PAGE_SIZE,
              XinuVM.MAX_FFS_SIZE] at hj ⊢
            omega

/-- **C8**: for every FFS frame `i` with valid mapping metadata whose
page `swap_out` evicts to the (first free) swap slot `s`, any
subsequent successful `swap_in` of slot `s` returns an FFS-range frame
whose page bytes all equal the evicted frame's original bytes, and
releases slot `s` back to the free pool.  The `hpool` hypothesis places
the PT pool below the FFS region (as in the real memory layout), so a
page-table allocation during a PTE walk cannot overwrite swap space. -/
theorem swap_out_then_swap_in_restores_page (st : MState) (i s : Nat)
    (ow : Int) (va pda : Nat)
    (hi : i < MAX_FFS_SIZE)
    (hE : st.ffs_tab i = ⟨true, ow, va, some pda⟩)
    (hva : va ≠ 0)
    (hpde : (st.pdes pda (va >>> 22 % 1024)).pres = true)
    (hscan : firstFree (fun k => (st.swap_tab k).used) MAX_SWAP_SIZE 0
      = some s)
    (hpool : st.pt_base + MAX_PT_SIZE * PAGE_SIZE ≤ FFS_START)
    (st' : MState)
    (hout : swap_out st (FFS_START + i * PAGE_SIZE) = some st')
    (newf : Nat) (st'' : MState)
    (hin : swap_in st' s = some (some newf, st'')) :
    (∀ b, st''.pages newf b = st.pages (FFS_START + i * PAGE_SIZE) b) ∧
    (st''.swap_tab s).used = false ∧
    FFS_START ≤ newf ∧ newf < FFS_END := by
  have heq := swap_out_eq st i s ow va pda hi hE hva hpde hscan
  rw [hout] at heq
  injection heq with heq
  subst heq
  have hslt : s < MAX_SWAP_SIZE := by
    obtain ⟨-, hlt, -⟩ := firstFree_some hscan
    omega
  have hused : ((swapOutResult st i s ow va pda).swap_tab s).used
      = true := by
    simp [swapOutResult, writePTE]
  have hpool' : (swapOutResult st i s ow va pda).pt_base
      + MAX_PT_SIZE * PAGE_SIZE ≤ FFS_START := hpool
  have hmid : ∀ b, (swapOutResult st i s ow va pda).pages
      (SWAP_START + s * PAGE_SIZE) b
      = st.pages (FFS_START + i * PAGE_SIZE) b := by
    intro b
    simp [swapOutResult, writePTE]
  obtain ⟨h1, h2, h3, h4⟩ := swap_in_success _ s hslt hused hpool'
    newf st'' hin
  exact ⟨fun b => (h1 b).trans (hmid b), h2, h3, h4⟩

/-- Witness for the C8 roundtrip on `engineWitnessState`: frame 0
(owner pid 5, mapped at 0x10000000) is evicted to slot 0; `swap_in`
returns frame `rtFrame` with the original page bytes and frees
slot 0. -/
theorem swap_out_then_swap_in_restores_page_witness :
    rtAfter.pages rtFrame 0
        = engineWitnessState.pages (FFS_START + 0 * PAGE_SIZE) 0 ∧
    (rtAfter.swap_tab 0).used = false ∧
    FFS_START ≤ rtFrame ∧ rtFrame < FFS_END := by
  have h := swap_out_then_swap_in_restores_page engineWitnessState 0 0 5
    0x10000000 0x00400000 (by decide) rfl (by decide) (by decide) rfl
    (by decide) rtMid
    (swap_out_eq engineWitnessState 0 0 5 0x10000000 0x00400000
      (by decide) rfl (by decide) (by decide) rfl)
    rtFrame rtAfter rfl
  exact ⟨h.1 0, h.2.1, h.2.2.1, h.2.2.2⟩

/-! #### vm_cleanup: PT pool untouched, FFS frames and swap slots released -/

theorem ffs_step_pt_next (pid : Int) (t : MState) (j : Nat) :
    (vm_cleanup_ffs_step pid t j).pt_next = t.pt_next := by
  unfold vm_cleanup_ffs_step
  split <;> rfl

theorem ffs_step_pt_base (pid : Int) (t : MState) (j : Nat) :
    (vm_cleanup_ffs_step pid t j).pt_base = t.pt_base := by
  unfold vm_cleanup_ffs_step
  split <;> rfl

theorem swap_step_pt_next (pid : Int) (t : MState) (j : Nat) :
    (vm_cleanup_swap_step pid t j).pt_next = t.pt_next := by
  unfold vm_cleanup_swap_step swap_free_frame
  split
  · split <;> rfl
  · rfl

theorem swap_step_pt_base (pid : Int) (t : MState) (j : Nat) :
    (vm_cleanup_swap_step pid t j).pt_base = t.pt_base := by
  unfold vm_cleanup_swap_step swap_free_frame
  split
  · split <;> rfl
  · rfl

theorem swap_step_ffs_tab (pid : Int) (t : MState) (j : Nat) :
    (vm_cleanup_swap_step pid t j).ffs_tab = t.ffs_tab := by
  unfold vm_cleanup_swap_step swap_free_frame
  split
  · split <;> rfl
  · rfl

theorem ffs_step_clears_self (pid : Int) (t : MState) (i : Nat) :
    ¬(((vm_cleanup_ffs_step pid t i).ffs_tab i).used = true ∧
      ((vm_cleanup_ffs_step pid t i).ffs_tab i).owner = pid) := by
  unfold vm_cleanup_ffs_step
  split
  · simp
  · rename_i h
    exact h

theorem ffs_step_preserves (pid : Int) (t : MState) (i j : Nat)
    (h : ¬((t.ffs_tab i).used = true ∧ (t.ffs_tab i).owner = pid)) :
    ¬(((vm_cleanup_ffs_step pid t j).ffs_tab i).used = true ∧
      ((vm_cleanup_ffs_step pid t j).ffs_tab i).owner = pid) := by
  unfold vm_cleanup_ffs_step
  split
  · by_cases hij : i = j
    · subst hij
      simp
    · simpa [hij] using h
  · exact h

theorem swap_step_clears_self (pid : Int) (t : MState) (i : Nat)
    (hi : i < XinuVM.MAX_SWAP_SIZE) :
    ¬(((vm_cleanup_swap_step pid t i).swap_tab i).used = true ∧
      ((vm_cleanup_swap_step pid t i).swap_tab i).owner = pid) := by
  unfold vm_cleanup_swap_step swap_free_frame
  split
  · rw [if_neg (by omega)]
    simp
  · rename_i h
    exact h

theorem swap_step_preserves (pid : Int) (t : MState) (i j : Nat)
    (h : ¬((t.swap_tab i).used = true ∧ (t.swap_tab i).owner = pid)) :
    ¬(((vm_cleanup_swap_step pid t j).swap_tab i).used = true ∧
      ((vm_cleanup_swap_step pid t j).swap_tab i).owner = pid) := by
  unfold vm_cleanup_swap_step swap_free_frame
  split
  · split
    · exact h
    · by_cases hij : i = j
      · subst hij
        simp
      · simpa [hij] using h
  · exact h

theorem vm_cleanup_pt_fields (st : MState) (pid : Int) :
    (vm_cleanup st pid).pt_next = st.pt_next ∧
    (vm_cleanup st pid).pt_base = st.pt_base := by
  cases hb : st.badpid pid with
  | true =>
    have hid : vm_cleanup st pid = st := by
      unfold vm_cleanup
      rw [hb, if_pos rfl]
    rw [hid]
    exact ⟨rfl, rfl⟩
  | false =>
    unfold vm_cleanup
    simp only [hb, Bool.false_eq_true, if_false]
    constructor
    · show ((List.range XinuVM.MAX_SWAP_SIZE).foldl (vm_cleanup_swap_step pid)
        ((List.range XinuVM.MAX_FFS_SIZE).foldl (vm_cleanup_ffs_step pid)
          st)).pt_next = st.pt_next
      rw [foldl_proj (vm_cleanup_swap_step pid) MState.pt_next _
          (swap_step_pt_next pid),
        foldl_proj (vm_cleanup_ffs_step pid) MState.pt_next _
          (ffs_step_pt_next pid)]
    · show ((List.range XinuVM.MAX_SWAP_SIZE).foldl (vm_cleanup_swap_step pid)
        ((List.range XinuVM.MAX_FFS_SIZE).foldl (vm_cleanup_ffs_step pid)
          st)).pt_base = st.pt_base
      rw [foldl_proj (vm_cleanup_swap_step pid) MState.pt_base _
          (swap_step_pt_base pid),
        foldl_proj (vm_cleanup_ffs_step pid) MState.pt_base _
          (ffs_step_pt_base pid)]

theorem vm_cleanup_releases_ffs (st : MState) (pid : Int)
    (hbad : st.badpid pid = false) (i : Nat)
    (hi : i < XinuVM.MAX_FFS_SIZE) :
    ¬(((vm_cleanup st pid).ffs_tab i).used = true ∧
      ((vm_cleanup st pid).ffs_tab i).owner = pid) := by
  unfold vm_cleanup
  simp only [hbad, Bool.false_eq_true, if_false]
  show ¬((((List.range XinuVM.MAX_SWAP_SIZE).foldl (vm_cleanup_swap_step pid)
      ((List.range XinuVM.MAX_FFS_SIZE).foldl (vm_cleanup_ffs_step pid)
        st)).ffs_tab i).used = true ∧
    (((List.range XinuVM.MAX_SWAP_SIZE).foldl (vm_cleanup_swap_step pid)
      ((List.range XinuVM.MAX_FFS_SIZE).foldl (vm_cleanup_ffs_step pid)
        st)).ffs_tab i).owner = pid)
  rw [foldl_proj (vm_cleanup_swap_step pid) MState.ffs_tab _
    (swap_step_ffs_tab pid)]
  exact foldl_establish (vm_cleanup_ffs_step pid)
    (fun t => ¬((t.ffs_tab i).used = true ∧ (t.ffs_tab i).owner = pid)) i
    (fun t => ffs_step_clears_self pid t i)
    (fun t j h => ffs_step_preserves pid t i j h)
    _ st (List.mem_range.mpr hi)

theorem vm_cleanup_releases_swap (st : MState) (pid : Int)
    (hbad : st.badpid pid = false) (i : Nat)
    (hi : i < XinuVM.MAX_SWAP_SIZE) :
    ¬(((vm_cleanup st pid).swap_tab i).used = true ∧
      ((vm_cleanup st pid).swap_tab i).owner = pid) := by
  unfold vm_cleanup
  simp only [hbad, Bool.false_eq_true, if_false]
  exact foldl_establish (vm_cleanup_swap_step pid)
    (fun t => ¬((t.swap_tab i).used = true ∧ (t.swap_tab i).owner = pid)) i
    (fun t => swap_step_clears_self pid t i hi)
    (fun t j h => swap_step_preserves pid t i j h)
    _ _ (List.mem_range.mpr hi)

end Paging

/-! ### Frame-accounting theorems -/

namespace Accounting

/-- Summing over `List.range n` two functions that differ at most at
one index `p < n` gives totals that differ exactly by the two values at
`p`. -/
theorem sum_update (n : Nat) (f g : Nat → Nat) (p : Nat) (hp : p < n)
    (hoth : ∀ q, q ≠ p → g q = f q) :
    ((List.range n).map g).sum + f p = ((List.range n).map f).sum + g p := by
  induction n with
  | zero => exact absurd hp (Nat.not_lt_zero p)
  | succ n ih =>
    rw [List.range_succ, List.map_append, List.map_append,
      List.sum_append, List.sum_append]
    simp only [List.map_cons, List.map_nil, List.sum_cons, List.sum_nil]
    rcases Nat.lt_succ_iff_lt_or_eq.mp hp with hlt | rfl
    · have hgn : g n = f n := hoth n (by omega)
      have hkey := ih hlt
      omega
    · have hmap : (List.range p).map g = (List.range p).map f :=
        List.map_congr_left (fun q hq =>
          hoth q (by have := List.mem_range.mp hq; omega))
      rw [hmap]
      omega

/-- A sum of zero contributions is zero. -/
theorem sum_map_zero (n : Nat) (f : Nat → Nat) (h0 : ∀ q, f q = 0) :
    ((List.range n).map f).sum = 0 := by
  induction n with
  | zero => rfl
  | succ n ih =>
    rw [List.range_succ, List.map_append, List.sum_append, ih]
    simp [h0]

/-- **C9**: at every quiescent point (a state reached from the
post-`paging_init` state by complete map/unmap/spawn/kill operations),
`free_ffs_pages()` plus the sum of `used_ffs_frames(pid)` over live
processes equals the FFS pool size `MAX_FFS_SIZE`. -/
theorem frame_accounting (nproc : Nat) (s : AState)
    (h : Reachable nproc s) :
    s.free + totalUsed nproc s = MAX_FFS_SIZE := by
  induction h with
  | init =>
    unfold totalUsed
    rw [sum_map_zero _ _ (fun q => by simp [initState])]
    rfl
  | @step s t hr hstep ih =>
    cases hstep with
    | spawn p hp hl =>
      unfold totalUsed at ih ⊢
      dsimp only
      have key := sum_update nproc
        (fun q => if s.live q then s.frames q else 0)
        (fun q => if (if q = p then true else s.live q) then
          (if q = p then 0 else s.frames q) else 0)
        p hp (fun q hq => by simp [hq])
      dsimp only at key
      have hfp : (if s.live p then s.frames p else 0) = 0 := by
        simp [hl]
      have hgp : (if (if p = p then true else s.live p) then
          (if p = p then 0 else s.frames p) else 0) = 0 := by
        simp
      omega
    | mapPage p hp hl hf =>
      unfold totalUsed at ih ⊢
      dsimp only
      have key := sum_update nproc
        (fun q => if s.live q then s.frames q else 0)
        (fun q => if s.live q then
          (if q = p then s.frames p + 1 else s.frames q) else 0)
        p hp (fun q hq => by simp [hq])
      dsimp only at key
      have hfp : (if s.live p then s.frames p else 0) = s.frames p := by
        simp [hl]
      have hgp : (if s.live p then
          (if p = p then s.frames p + 1 else s.frames p) else 0)
          = s.frames p + 1 := by
        simp [hl]
      omega
    | freePage p hp hl hf =>
      unfold totalUsed at ih ⊢
      dsimp only
      have key := sum_update nproc
        (fun q => if s.live q then s.frames q else 0)
        (fun q => if s.live q then
          (if q = p then s.frames p - 1 else s.frames q) else 0)
        p hp (fun q hq => by simp [hq])
      dsimp only at key
      have hfp : (if s.live p then s.frames p else 0) = s.frames p := by
        simp [hl]
      have hgp : (if s.live p then
          (if p = p then s.frames p - 1 else s.frames p) else 0)
          = s.frames p - 1 := by
        simp [hl]
      omega
    | killClean p hp hl =>
      unfold totalUsed at ih ⊢
      dsimp only
      have key := sum_update nproc
        (fun q => if s.live q then s.frames q else 0)
        (fun q => if (if q = p then false else s.live q) then
          s.frames q else 0)
        p hp (fun q hq => by simp [hq])
      dsimp only at key
      have hfp : (if s.live p then s.frames p else 0) = s.frames p := by
        simp [hl]
      have hgp : (if (if p = p then false else s.live p) then
          s.frames p else 0) = 0 := by
        simp
      omega

/-- Witness for C9: after spawning pid 3 and mapping one page for it
(one complete fault), the free count `MAX_FFS_SIZE - 1` plus the single
used frame again totals `MAX_FFS_SIZE`. -/
theorem frame_accounting_witness :
    (⟨MAX_FFS_SIZE - 1,
      fun q => if q = 3 then true else false,
      fun q => if q = 3 then 1 else (if q = 3 then 0 else 0)⟩
        : AState).free
      + totalUsed 8
        ⟨MAX_FFS_SIZE - 1,
         fun q => if q = 3 then true else false,
         fun q => if q = 3 then 1 else (if q = 3 then 0 else 0)⟩
      = MAX_FFS_SIZE :=
  frame_accounting 8 _
    (Reachable.step
      (Reachable.step Reachable.init
        (Step.spawn initState 3 (by decide) rfl))
      (Step.mapPage _ 3 (by decide) rfl (by decide)))

end Accounting

/-- **C3** (amended).  The `vm_cleanup` teardown of paging.c indeed never
frees a PT-pool frame — its bump allocator's `pt_next`/`pt_base` are
untouched — and, for a valid pid, it releases every FFS frame and every
swap slot the process owned.  But the claim's "never reclaimed during a
run" is refuted by the kill path: kill.c walks the dead process's user
PDEs and frees both its page tables' PT-pool frames and its page
directory's frame, as the concrete `killState` run shows (PT-pool bit 0
is set before `kill` and clear afterwards). -/
theorem vm_cleanup_spares_pt_pool_but_kill_frees_it
    (st : Paging.MState) (pid : Int) :
    ((Paging.vm_cleanup st pid).pt_next = st.pt_next ∧
      (Paging.vm_cleanup st pid).pt_base = st.pt_base) ∧
    (st.badpid pid = false →
      (∀ i, i < MAX_FFS_SIZE →
        ¬(((Paging.vm_cleanup st pid).ffs_tab i).used = true ∧
          ((Paging.vm_cleanup st pid).ffs_tab i).owner = pid)) ∧
      (∀ i, i < MAX_SWAP_SIZE →
        ¬(((Paging.vm_cleanup st pid).swap_tab i).used = true ∧
          ((Paging.vm_cleanup st pid).swap_tab i).owner = pid))) ∧
    (BitmapVM.killState.ptBitmap 0 = true ∧
      (BitmapVM.kill_vm_cleanup BitmapVM.killState).ptBitmap 0 = false) := by
  refine ⟨Paging.vm_cleanup_pt_fields st pid, ?_, rfl, ?_⟩
  · intro hbad
    exact ⟨fun i hi => Paging.vm_cleanup_releases_ffs st pid hbad i hi,
      fun i hi => Paging.vm_cleanup_releases_swap st pid hbad i hi⟩
  · rw [BitmapVM.kill_vm_cleanup_killState_eq]
    rfl

/-- Witness for the C3 amended theorem at the concrete engine state:
pid 5 is valid there, its FFS slot 0 is released by `vm_cleanup`, no
swap slot remains owned, and `pt_next` is unchanged. -/
theorem vm_cleanup_spares_pt_pool_but_kill_frees_it_witness :
    (Paging.vm_cleanup Paging.engineWitnessState 5).pt_next
        = Paging.engineWitnessState.pt_next ∧
    ¬(((Paging.vm_cleanup Paging.engineWitnessState 5).ffs_tab 0).used
          = true ∧
      ((Paging.vm_cleanup Paging.engineWitnessState 5).ffs_tab 0).owner
          = 5) ∧
    ¬(((Paging.vm_cleanup Paging.engineWitnessState 5).swap_tab 0).used
          = true ∧
      ((Paging.vm_cleanup Paging.engineWitnessState 5).swap_tab 0).owner
          = 5) :=
  ⟨(vm_cleanup_spares_pt_pool_but_kill_frees_it
      Paging.engineWitnessState 5).1.1,
   ((vm_cleanup_spares_pt_pool_but_kill_frees_it
      Paging.engineWitnessState 5).2.1 rfl).1 0 (by decide),
   ((vm_cleanup_spares_pt_pool_but_kill_frees_it
      Paging.engineWitnessState 5).2.1 rfl).2 0 (by decide)⟩

end XinuVM
